import Mathlib

deriving instance DecidableEq for Except

/-!
Verification development for `gg_mhtml_to_site` (src/mhtml.rs, src/main.rs,
src/thumbnail.rs).

The Rust sources drive almost all parsing through the `regex` crate, so the
embedding starts with a small backtracking regex engine with the leftmost-first
(preference-order) semantics of that crate.  Each Rust pattern is transcribed
into the `Re` AST; `captures`, `split` and `replace_all` are modelled on top of
the engine.  Machine integers are Nat with explicit bounds where they matter;
fallible Rust code returns `Except`; `unwrap`/`panic!`-style terminations are
modelled by a dedicated error constructor so that typed errors and aborts stay
distinguishable.  Byte strings are modelled as `List Char`; all concrete inputs
used in the theorems are ASCII, where the byte-level and char-level views of
the Rust code coincide.
-/

set_option maxRecDepth 20000

namespace GG

/-! ## Character classes used by the Rust regexes and std helpers -/

/-- Unicode white space, the set matched by the `regex` crate class `\s`
(and the set trimmed by Rust `str::trim`). -/
def isUniWs (c : Char) : Bool :=
  c.toNat = 0x20 || c.toNat = 0x09 || c.toNat = 0x0A || c.toNat = 0x0B ||
  c.toNat = 0x0C || c.toNat = 0x0D || c.toNat = 0x85 || c.toNat = 0xA0 ||
  c.toNat = 0x1680 || (0x2000 ≤ c.toNat && c.toNat ≤ 0x200A) ||
  c.toNat = 0x2028 || c.toNat = 0x2029 || c.toNat = 0x202F ||
  c.toNat = 0x205F || c.toNat = 0x3000

/-- Rust `u8::is_ascii_whitespace` (space, tab, newline, form feed, carriage
return; note: not vertical tab). -/
def isAsciiWs (c : Char) : Bool :=
  c.toNat = 0x20 || c.toNat = 0x09 || c.toNat = 0x0A ||
  c.toNat = 0x0C || c.toNat = 0x0D

/-- Rust `char::is_ascii_punctuation`. -/
def isAsciiPunct (c : Char) : Bool :=
  (0x21 ≤ c.toNat && c.toNat ≤ 0x2F) || (0x3A ≤ c.toNat && c.toNat ≤ 0x40) ||
  (0x5B ≤ c.toNat && c.toNat ≤ 0x60) || (0x7B ≤ c.toNat && c.toNat ≤ 0x7E)

/-- ASCII decimal digit, the `regex` class `\d` restricted to ASCII inputs. -/
def isDigit (c : Char) : Bool := 0x30 ≤ c.toNat && c.toNat ≤ 0x39

/-! ## Regex AST and leftmost-first backtracking matcher -/

/-- Regex AST.  `cls` is a single-character class, `alt` prefers its left arm,
`starG`/`starL` are the greedy and lazy Kleene stars, `group` records the text
consumed by its body as capture group `i`. -/
inductive Re : Type where
  | eps : Re
  | cls (p : Char → Bool) : Re
  | cat (a b : Re) : Re
  | alt (a b : Re) : Re
  | starG (a : Re) : Re
  | starL (a : Re) : Re
  | group (i : Nat) (a : Re) : Re

/-- Literal single character. -/
def Re.lit (c : Char) : Re := .cls (fun x => x = c)

/-- Literal string. -/
def Re.str (s : String) : Re := s.data.foldr (fun c r => .cat (.lit c) r) .eps

/-- Greedy `+`. -/
def Re.plusG (a : Re) : Re := .cat a (.starG a)

/-- Greedy `?`. -/
def Re.optG (a : Re) : Re := .alt a .eps

/-- Capture groups as an association list; the most recent binding of a group
index wins, matching the overwrite-on-repeat behaviour of the regex crate. -/
abbrev Caps := List (Nat × List Char)

/-- Text of capture group `i` (empty if the group never matched; together with
the theorems this models `&captures[name]`, which in the Rust code is only
evaluated for groups that are bound whenever the whole pattern matches). -/
def getCap (caps : Caps) (i : Nat) : List Char :=
  ((caps.find? (fun p => p.1 = i)).map Prod.snd).getD []

/-- Result handed to the matcher continuation: remaining input and captures. -/
abbrev MRes := List Char × Caps

/-- Continuation-passing backtracking matcher.  `mtch fuel r s caps k` tries to
match a front segment of `s` against `r` in preference order, calling `k` with
the rest of the input at every candidate split; the first `some` wins, which is
exactly the leftmost-first semantics of the `regex` crate.  Every recursive
call consumes one unit of fuel, so the recursion is structural; along one
backtracking path the engine uses at most `(size of r) ⬝ (length of s + 1)`
frames, so the generous fuel supplied by `matchAt` below is never exhausted on
the runs appearing in this development.  An empty star iteration stops the
star, as in the crate. -/
def mtch : Nat → Re → List Char → Caps → (List Char → Caps → Option MRes) →
    Option MRes
  | 0, _, _, _, _ => none
  | _ + 1, .eps, s, caps, k => k s caps
  | _ + 1, .cls p, s, caps, k =>
    match s with
    | [] => none
    | c :: rest => if p c then k rest caps else none
  | fuel + 1, .cat a b, s, caps, k =>
    mtch fuel a s caps (fun s2 c2 => mtch fuel b s2 c2 k)
  | fuel + 1, .alt a b, s, caps, k =>
    (mtch fuel a s caps k).orElse (fun _ => mtch fuel b s caps k)
  | fuel + 1, .group i a, s, caps, k =>
    mtch fuel a s caps
      (fun s2 c2 => k s2 ((i, s.take (s.length - s2.length)) :: c2))
  | fuel + 1, .starG a, s, caps, k =>
    (mtch fuel a s caps
        (fun s2 c2 =>
          if s2.length < s.length then mtch fuel (.starG a) s2 c2 k
          else none)).orElse
      (fun _ => k s caps)
  | fuel + 1, .starL a, s, caps, k =>
    (k s caps).orElse
      (fun _ =>
        mtch fuel a s caps
          (fun s2 c2 =>
            if s2.length < s.length then mtch fuel (.starL a) s2 c2 k
            else none))

/-- Size of a regex AST, used only to compute a generous fuel bound. -/
def Re.size : Re → Nat
  | .eps => 1
  | .cls _ => 1
  | .cat a b => a.size + b.size + 1
  | .alt a b => a.size + b.size + 1
  | .starG a => a.size + 1
  | .starL a => a.size + 1
  | .group _ a => a.size + 1

/-- Fuel that is always sufficient for `mtch` on the given input. -/
def bigFuel (r : Re) (s : List Char) : Nat := (r.size + 2) * (s.length + 2)

/-- Match `r` against a front segment of `s` (the way an anchored `captures`
or a `find` candidate at one position works).  Returns the matched text, the
rest of the input, and the capture groups of the preferred match. -/
def matchAt (r : Re) (s : List Char) : Option (List Char × List Char × Caps) :=
  (mtch (bigFuel r s) r s [] (fun rest caps => some (rest, caps))).map
    (fun rc => (s.take (s.length - rc.1.length), rc.1, rc.2))

/-- Leftmost match: scan positions left to right, at each position taking the
preference-order match; mirrors `Regex::captures` / `find` on an unanchored
pattern.  Returns (text before the match, matched text, rest, captures). -/
def findFirst (r : Re) : List Char →
    Option (List Char × List Char × List Char × Caps)
  | [] =>
    match matchAt r [] with
    | some (m, rest, caps) => some ([], m, rest, caps)
    | none => none
  | c :: cs =>
    match matchAt r (c :: cs) with
    | some (m, rest, caps) => some ([], m, rest, caps)
    | none =>
      (findFirst r cs).map (fun x => (c :: x.1, x.2.1, x.2.2.1, x.2.2.2))

/-- One step of `Regex::split`: fragments of `s` between successive leftmost
matches.  `fuel` bounds the number of matches; `splitRe` supplies `length + 1`,
which suffices because every match of the patterns used here is nonempty. -/
def splitReAux (r : Re) : Nat → List Char → List (List Char)
  | 0, s => [s]
  | fuel + 1, s =>
    match findFirst r s with
    | none => [s]
    | some (pre, m, rest, _) =>
      if m.isEmpty then
        match rest with
        | [] => [pre]
        | c :: cs => pre :: (splitReAux r fuel cs).modifyHead (fun f => c :: f)
      else pre :: splitReAux r fuel rest

/-- Model of `Regex::split`. -/
def splitRe (r : Re) (s : List Char) : List (List Char) :=
  splitReAux r (s.length + 1) s

/-- Stateful `Regex::replace_all` with a callback, the shape used by
`rewrite_i_tags`: the callback receives the accumulated state and the matched
text with its captures, and returns the new state and the replacement text. -/
def replaceAllStAux {σ : Type} (r : Re)
    (f : σ → List Char × Caps → σ × List Char) :
    Nat → List Char → σ → List Char × σ
  | 0, s, st => (s, st)
  | fuel + 1, s, st =>
    match findFirst r s with
    | none => (s, st)
    | some (pre, m, rest, caps) =>
      let fr := f st (m, caps)
      if m.isEmpty then
        match rest with
        | [] => (pre ++ fr.2, fr.1)
        | c :: cs =>
          let out := replaceAllStAux r f fuel cs fr.1
          (pre ++ fr.2 ++ c :: out.1, out.2)
      else
        let out := replaceAllStAux r f fuel rest fr.1
        (pre ++ fr.2 ++ out.1, out.2)

/-- Stateful `replace_all` entry point. -/
def replaceAllSt {σ : Type} (r : Re)
    (f : σ → List Char × Caps → σ × List Char) (s : List Char) (st : σ) :
    List Char × σ :=
  replaceAllStAux r f (s.length + 1) s st

/-- `Regex::replace_all` with a replacement depending only on the captures
(constant replacements and `$1`-style expansions). -/
def replaceAll (r : Re) (f : List Char × Caps → List Char) (s : List Char) :
    List Char :=
  (replaceAllSt r (fun (_ : Unit) mc => ((), f mc)) s ()).1

/-! ## Dates (model of the chrono types used by the sources) -/

/-- Model of `chrono::NaiveDate`: a calendar-valid proleptic Gregorian date is
only ever built through `fromYmd?` below. -/
structure NaiveDate where
  y : Int
  m : Nat
  d : Nat
deriving DecidableEq, Repr

/-- Gregorian leap year. -/
def isLeapYear (y : Int) : Bool := (y % 4 == 0 && y % 100 != 0) || y % 400 == 0

/-- Days in a month of the proleptic Gregorian calendar. -/
def daysInMonth (y : Int) (m : Nat) : Nat :=
  if m = 2 then (if isLeapYear y then 29 else 28)
  else if m = 4 || m = 6 || m = 9 || m = 11 then 30
  else 31

/-- Model of `NaiveDate::from_ymd_opt`: `none` on any out-of-range component
(chrono years are limited to `-262144..=262143`). -/
def NaiveDate.fromYmd? (y : Int) (m d : Nat) : Option NaiveDate :=
  if -262144 ≤ y && y ≤ 262143 && 1 ≤ m && m ≤ 12 && 1 ≤ d &&
      d ≤ daysInMonth y m then
    some ⟨y, m, d⟩
  else none

/-- Model of `chrono::DateTime<FixedOffset>` as produced by
`parse_from_rfc2822`: the civil (local) date and time as written, plus the
offset.  `naive_local().date()` is then exactly `localDate`. -/
structure DateTimeFO where
  localDate : NaiveDate
  hour : Nat
  minute : Nat
  second : Nat
  offsetMinutes : Int
deriving DecidableEq, Repr

/-- Numeric value of a run of ASCII digits. -/
def digitsToNat (ds : List Char) : Nat :=
  ds.foldl (fun n c => n * 10 + (c.toNat - 0x30)) 0

/-- Month number for an English three-letter abbreviation (chrono `%b`,
title case as produced by this data source). -/
def monthAbbrev? (s : List Char) : Option Nat :=
  if s = "Jan".data then some 1 else if s = "Feb".data then some 2
  else if s = "Mar".data then some 3 else if s = "Apr".data then some 4
  else if s = "May".data then some 5 else if s = "Jun".data then some 6
  else if s = "Jul".data then some 7 else if s = "Aug".data then some 8
  else if s = "Sep".data then some 9 else if s = "Oct".data then some 10
  else if s = "Nov".data then some 11 else if s = "Dec".data then some 12
  else none

/-- Split a leading run of ASCII digits. -/
def spanDigits (s : List Char) : List Char × List Char := s.span isDigit

/-- Model of `DateTime::parse_from_rfc2822`, restricted to the canonical
RFC 2822 shape produced by the archiver:
`[Day, ]DD Mon YYYY HH:MM:SS +ZZZZ`.  Returns `none` (the Rust code then
panics on `unwrap`) when the shape or the calendar validation fails. -/
def parseRfc2822 (s : List Char) : Option DateTimeFO :=
  -- optional day-of-week: three letters and ", "
  let s := match s with
    | a :: b :: c :: ',' :: ' ' :: rest =>
      if a.isAlpha && b.isAlpha && c.isAlpha then rest else s
    | _ => s
  let (dayDs, s) := spanDigits s
  if dayDs.isEmpty then none else
  match s with
  | ' ' :: s =>
    let mon := s.take 3
    let s := s.drop 3
    match monthAbbrev? mon, s with
    | some m, ' ' :: s =>
      let (yearDs, s) := spanDigits s
      if yearDs.length ≠ 4 then none else
      match s with
      | ' ' :: h1 :: h2 :: ':' :: m1 :: m2 :: ':' :: s1 :: s2 :: ' ' ::
          sign :: z1 :: z2 :: z3 :: z4 :: rest =>
        if rest.isEmpty && h1.isDigit && h2.isDigit && m1.isDigit &&
            m2.isDigit && s1.isDigit && s2.isDigit &&
            (sign = '+' || sign = '-') && z1.isDigit && z2.isDigit &&
            z3.isDigit && z4.isDigit then
          let hh := digitsToNat [h1, h2]
          let mi := digitsToNat [m1, m2]
          let ss := digitsToNat [s1, s2]
          let offH := digitsToNat [z1, z2]
          let offM := digitsToNat [z3, z4]
          if hh ≤ 23 && mi ≤ 59 && ss ≤ 60 && offH ≤ 23 && offM ≤ 59 then
            match NaiveDate.fromYmd? (Int.ofNat (digitsToNat yearDs)) m
                (digitsToNat dayDs) with
            | some date =>
              some ⟨date, hh, mi, ss,
                (if sign = '-' then -1 else 1) * (offH * 60 + offM)⟩
            | none => none
          else none
        else none
      | _ => none
    | _, _ => none
  | _ => none

/-! ## Transfer decodings (src/mhtml.rs lines 32-36 and 58-64) -/

/-- Base64 value of one alphabet character of `BASE64_STANDARD`. -/
def b64Val (c : Char) : Option Nat :=
  if 0x41 ≤ c.toNat && c.toNat ≤ 0x5A then some (c.toNat - 0x41)
  else if 0x61 ≤ c.toNat && c.toNat ≤ 0x7A then some (c.toNat - 0x61 + 26)
  else if 0x30 ≤ c.toNat && c.toNat ≤ 0x39 then some (c.toNat - 0x30 + 52)
  else if c = '+' then some 62
  else if c = '/' then some 63
  else none

/-- Model of `BASE64_STANDARD.decode` on whitespace-free input: groups of
four symbols, canonical `=` padding required, trailing bits must be zero. -/
def b64DecodeGroups : List Char → Option (List Nat)
  | [] => some []
  | a :: b :: c :: d :: rest =>
    match b64Val a, b64Val b with
    | some va, some vb =>
      if c = '=' then
        if d = '=' && rest.isEmpty && vb % 16 = 0 then
          some [va * 4 + vb / 16]
        else none
      else
        match b64Val c with
        | some vc =>
          if d = '=' then
            if rest.isEmpty && vc % 4 = 0 then
              some [va * 4 + vb / 16, (vb % 16) * 16 + vc / 4]
            else none
          else
            match b64Val d with
            | some vd =>
              (b64DecodeGroups rest).map
                (fun t => (va * 4 + vb / 16) :: ((vb % 16) * 16 + vc / 4) ::
                  ((vc % 4) * 64 + vd) :: t)
            | none => none
        | none => none
    | _, _ => none
  | _ => none

/-- `decode_base64_containing_whitespace` (mhtml.rs line 32): strip all ASCII
whitespace, then base64-decode; `none` models the `unwrap` panic on invalid
input. -/
def decode_base64_containing_whitespace (data : List Char) :
    Option (List Nat) :=
  b64DecodeGroups (data.filter (fun c => !isAsciiWs c))

/-- Hex digit value (both cases). -/
def hexVal (c : Char) : Option Nat :=
  if 0x30 ≤ c.toNat && c.toNat ≤ 0x39 then some (c.toNat - 0x30)
  else if 0x41 ≤ c.toNat && c.toNat ≤ 0x46 then some (c.toNat - 0x41 + 10)
  else if 0x61 ≤ c.toNat && c.toNat ≤ 0x66 then some (c.toNat - 0x61 + 10)
  else none

/-- Model of `quoted_printable::decode` in `ParseMode::Strict`: `=HH` escapes
and `=CRLF` soft breaks; any other use of `=` is an invalid escape and fails
(`none`, on which the Rust code panics via `unwrap`). -/
def qpDecode : List Char → Option (List Nat)
  | [] => some []
  | '=' :: a :: b :: rest =>
    if a = '\r' && b = '\n' then qpDecode rest
    else
      match hexVal a, hexVal b with
      | some ha, some hb => (qpDecode rest).map (fun t => (ha * 16 + hb) :: t)
      | _, _ => none
  | '=' :: _ => none
  | c :: rest => (qpDecode rest).map (fun t => c.toNat :: t)

/-! ## MHTML data model and errors (src/mhtml.rs) -/

/-- `MhtmlPiece` (mhtml.rs lines 12-17); bytes are the decoded payload. -/
structure MhtmlPiece where
  content_type : List Char
  location : List Char
  bytes : List Nat
deriving DecidableEq, Repr

/-- `MhtmlDoc` (mhtml.rs lines 19-25). -/
structure MhtmlDoc where
  subject : List Char
  date : DateTimeFO
  location : List Char
  pieces : List MhtmlPiece
deriving DecidableEq, Repr

/-- Sites at which the Rust code terminates the task (`unwrap` / `panic!`)
instead of returning a typed error. -/
inductive PanicSite : Type where
  | malformedDate : PanicSite
  | badBase64 : PanicSite
  | badQuotedPrintable : PanicSite
  | unknownEncoding : PanicSite
  | invalidBoundaryPattern : PanicSite
  | intOverflow : PanicSite
  | badChronoFormat : PanicSite
deriving DecidableEq, Repr

/-- The typed `io::Error` values (all built through `invalid_data_err`),
tagged by their message. -/
inductive IoErr : Type where
  | pieceHeaderMismatch : IoErr  -- "MHTML piece doesn't have expected header"
  | docHeaderMismatch : IoErr    -- "MHTML doesn't have expected header"
  | noData : IoErr               -- "MHTML has no data"
  | notTextHtml : IoErr          -- "Expecting text/html"
deriving DecidableEq, Repr

/-- Outcome of fallible Rust code: a typed error value, or task termination
by panic — the two are distinct in the Rust semantics and stay distinct
here. -/
inductive RtError : Type where
  | ioError (e : IoErr) : RtError
  | panicked (site : PanicSite) : RtError
deriving DecidableEq, Repr

/-- Class `\S`. -/
def sNonWs : Re := .cls (fun c => !isUniWs c)

/-- Class `\s`. -/
def sWs : Re := .cls isUniWs

/-- Class `[^\r\n]`. -/
def notCRLF : Re := .cls (fun c => !(c = '\r' || c = '\n'))

/-- Transcription of the `SECTION_RE` pattern of `parse_mhtml_piece`
(mhtml.rs lines 40-48, an extended-mode pattern where pattern whitespace is
insignificant): `^Content-Type:\s(\S+)\s*(?:Content-ID:\s\S+\s+)?`
`Content-Transfer-Encoding:\s(\S+)\s*Content-Location:\s(\S+)\s*` with capture
groups 1 = content_type, 2 = encoding, 3 = location. -/
def sectionRe : Re :=
  .cat (.str "Content-Type:") <| .cat sWs <|
  .cat (.group 1 (.plusG sNonWs)) <| .cat (.starG sWs) <|
  .cat (.optG (.cat (.str "Content-ID:") <| .cat sWs <|
    .cat (.plusG sNonWs) (.plusG sWs))) <|
  .cat (.str "Content-Transfer-Encoding:") <| .cat sWs <|
  .cat (.group 2 (.plusG sNonWs)) <| .cat (.starG sWs) <|
  .cat (.str "Content-Location:") <| .cat sWs <|
  .cat (.group 3 (.plusG sNonWs)) (.starG sWs)

/-- Transcription of the `HEADER_RE` pattern of `parse` (mhtml.rs lines
72-81): the fixed header block with capture groups 1 = location, 2 = subject,
3 = date, 4 = boundary. -/
def headerRe : Re :=
  .cat (.str "From:") <| .cat sWs <| .cat (.plusG notCRLF) <|
  .cat (.starG sWs) <|
  .cat (.str "Snapshot-Content-Location:") <| .cat sWs <|
  .cat (.group 1 (.plusG notCRLF)) <| .cat (.starG sWs) <|
  .cat (.str "Subject:") <| .cat sWs <|
  .cat (.group 2 (.plusG notCRLF)) <| .cat (.starG sWs) <|
  .cat (.str "Date:") <| .cat sWs <|
  .cat (.group 3 (.plusG notCRLF)) <| .cat (.starG sWs) <|
  .cat (.str "MIME-Version:") <| .cat sWs <| .cat (.plusG notCRLF) <|
  .cat (.starG sWs) <|
  .cat (.str "Content-Type:") <| .cat sWs <| .cat (.plusG notCRLF) <|
  .cat (.starG sWs) <|
  .cat (.plusG sWs) <| .cat (.str "type=") <| .cat (.plusG notCRLF) <|
  .cat (.plusG sWs) <| .cat (.str "boundary=") <| .cat (.lit '"') <|
  .cat (.group 4 (.plusG (.cls (fun c => c ≠ '"')))) (.lit '"')

/-! ## Boundary pattern construction (src/mhtml.rs lines 98-100)

The Rust code expands the template `[\r\n]*-*$boundary-*[\r\n]*`, splicing the
raw captured boundary text into the pattern, and compiles the result with
`Regex::new` — without escaping regex metacharacters in the token.  The
faithful model therefore parses the spliced pattern string as a regex.  The
parser below covers the fragment the template can produce for boundary tokens
built from literals, `.`, character classes and postfix `*`/`+`/`?` — enough
for every input considered in this development. -/

/-- Unescape `\x` inside a pattern (classes and atoms). -/
def unescChar (c : Char) : Char :=
  if c = 'r' then '\r' else if c = 'n' then '\n' else if c = 't' then '\t'
  else c

/-- Characters of a bracket class, up to the closing `]`. -/
def parseClsChars : List Char → Option (List Char × List Char)
  | [] => none
  | ']' :: rest => some ([], rest)
  | '\\' :: e :: rest =>
    (parseClsChars rest).map (fun x => (unescChar e :: x.1, x.2))
  | c :: rest =>
    (parseClsChars rest).map (fun x => (c :: x.1, x.2))

/-- One regex atom of the boundary pattern. -/
def parseAtom : List Char → Option (Re × List Char)
  | [] => none
  | '.' :: rest => some (.cls (fun c => c ≠ '\n'), rest)
  | '\\' :: e :: rest => some (.lit (unescChar e), rest)
  | '[' :: '^' :: rest =>
    (parseClsChars rest).map
      (fun x => (.cls (fun c => !x.1.contains c), x.2))
  | '[' :: rest =>
    (parseClsChars rest).map (fun x => (.cls (fun c => x.1.contains c), x.2))
  | '*' :: _ => none
  | '+' :: _ => none
  | '?' :: _ => none
  | c :: rest => some (.lit c, rest)

/-- Sequence of atoms with greedy postfix operators. -/
def parseSeq : Nat → List Char → Option Re
  | 0, _ => none
  | _, [] => some .eps
  | fuel + 1, s =>
    match parseAtom s with
    | none => none
    | some (a, rest) =>
      match rest with
      | '*' :: r2 => (parseSeq fuel r2).map (fun b => .cat (.starG a) b)
      | '+' :: r2 => (parseSeq fuel r2).map (fun b => .cat (.plusG a) b)
      | '?' :: r2 => (parseSeq fuel r2).map (fun b => .cat (.optG a) b)
      | r2 => (parseSeq fuel r2).map (fun b => .cat a b)

/-- Model of `Regex::new` on the boundary pattern string. -/
def parseRegex (pat : List Char) : Option Re := parseSeq (pat.length + 1) pat

/-- The expanded boundary delimiter pattern `[\r\n]*-*$boundary-*[\r\n]*`:
the raw boundary text is spliced into the pattern string unescaped. -/
def mkBoundaryPattern (boundary : List Char) : List Char :=
  ("[".data ++ ['\\', 'r', '\\', 'n'] ++ "]*-*".data) ++ boundary ++
    ("-*[".data ++ ['\\', 'r', '\\', 'n'] ++ "]*".data)

/-! ## parse_mhtml_piece and parse (src/mhtml.rs lines 38-106) -/

/-- `parse_mhtml_piece` (mhtml.rs lines 38-67).  The missing `utf8_bytes`
helpers of the repository are, per the spec, trivial UTF-8 views and are the
identity in this char-level model. -/
def parse_mhtml_piece (text : List Char) : Except RtError MhtmlPiece :=
  match matchAt sectionRe text with
  | none => .error (.ioError .pieceHeaderMismatch)
  | some (_, remainder, caps) =>
    let content_type := getCap caps 1
    let encoding := getCap caps 2
    let location := getCap caps 3
    if encoding = "base64".data then
      match decode_base64_containing_whitespace remainder with
      | some bytes => .ok ⟨content_type, location, bytes⟩
      | none => .error (.panicked .badBase64)
    else if encoding = "quoted-printable".data then
      match qpDecode remainder with
      | some bytes => .ok ⟨content_type, location, bytes⟩
      | none => .error (.panicked .badQuotedPrintable)
    else .error (.panicked .unknownEncoding)

/-- `parse` (mhtml.rs lines 69-106): match the fixed header, parse the RFC 2822
date (panicking on failure, as the Rust `unwrap` does), build the boundary
delimiter regex from the raw captured token, split the remaining input on it,
drop empty fragments and parse each fragment as a piece.  Note: there is no
empty-document check here — `parse` returns whatever list of pieces the split
produced. -/
def parse (contents : List Char) : Except RtError MhtmlDoc :=
  match matchAt headerRe contents with
  | none => .error (.ioError .docHeaderMismatch)
  | some (_, rest, caps) =>
    match parseRfc2822 (getCap caps 3) with
    | none => .error (.panicked .malformedDate)
    | some date =>
      match parseRegex (mkBoundaryPattern (getCap caps 4)) with
      | none => .error (.panicked .invalidBoundaryPattern)
      | some boundaryRe =>
        (((splitRe boundaryRe rest).filter
            (fun f => !f.isEmpty)).mapM parse_mhtml_piece).map
          (fun pieces => ⟨getCap caps 2, date, getCap caps 1, pieces⟩)

/-! ## src/main.rs: date extraction -/

/-- Transcription of `DATE_RE` of `date_from_title` (main.rs line 97):
`(\d+)/(\d+)/(\d+)` with groups 1 = month, 2 = day, 3 = year. -/
def titleDateRe : Re :=
  .cat (.group 1 (.plusG (.cls isDigit))) <| .cat (.lit '/') <|
  .cat (.group 2 (.plusG (.cls isDigit))) <| .cat (.lit '/')
    (.group 3 (.plusG (.cls isDigit)))

/-- `date_from_title` (main.rs lines 94-104): find the first `M/D/Y` numeric
match, parse the components (`parse().unwrap()` panics on machine-integer
overflow, modelled by the explicit `2^31`/`2^32` bounds), map two-digit years
to `2000 + year`, and validate through `from_ymd_opt` — an invalid calendar
combination yields `none`, not an error. -/
def date_from_title (title : List Char) : Except RtError (Option NaiveDate) :=
  match findFirst titleDateRe title with
  | none => .ok none
  | some (_, _, _, caps) =>
    let yearN := digitsToNat (getCap caps 3)
    let monthN := digitsToNat (getCap caps 1)
    let dayN := digitsToNat (getCap caps 2)
    if yearN < 2 ^ 31 ∧ monthN < 2 ^ 32 ∧ dayN < 2 ^ 32 then
      let year : Int := Int.ofNat yearN
      let fullYear : Int := if year < 100 then year + 2000 else year
      .ok (NaiveDate.fromYmd? fullYear monthN dayN)
    else .error (.panicked .intOverflow)

/-- Class `[A-Z]`. -/
def upperAZ : Re := .cls (fun c => 0x41 ≤ c.toNat && c.toNat ≤ 0x5A)

/-- Class `[a-z]`. -/
def lowerAZ : Re := .cls (fun c => 0x61 ≤ c.toNat && c.toNat ≤ 0x7A)

/-- Class `\d` (digit). -/
def dig : Re := .cls isDigit

/-- Transcription of `DATETIME_RE` of `date_from_html` (main.rs line 126):
`<span[^>]*>\s*([A-Z][a-z]{2} \d+, \d{4}, \d{1,2}:\d\d:\d\d[^<]+(?:AM|PM))`
`</span>` with group 1 = the timestamp text. -/
def datetimeRe : Re :=
  .cat (.str "<span") <| .cat (.starG (.cls (fun c => c ≠ '>'))) <|
  .cat (.lit '>') <| .cat (.starG sWs) <|
  .cat (.group 1 (
    .cat upperAZ <| .cat lowerAZ <| .cat lowerAZ <| .cat (.lit ' ') <|
    .cat (.plusG dig) <| .cat (.str ", ") <|
    .cat dig <| .cat dig <| .cat dig <| .cat dig <| .cat (.str ", ") <|
    .cat dig <| .cat (.optG dig) <| .cat (.lit ':') <|
    .cat dig <| .cat dig <| .cat (.lit ':') <| .cat dig <| .cat dig <|
    .cat (.plusG (.cls (fun c => c ≠ '<'))) (.alt (.str "AM") (.str "PM"))))
    (.str "</span>")

/-- Model of chrono `NaiveDate::parse_and_remainder(s, "%b %d, %Y")`: month
abbreviation, space, day (at most two digits), ", ", year digits; the
remainder after the year is ignored.  Calendar validation as in chrono. -/
def parseMonthDayYear (s : List Char) : Option NaiveDate :=
  match monthAbbrev? (s.take 3), s.drop 3 with
  | some m, ' ' :: s2 =>
    let dayDs := (s2.take 2).takeWhile isDigit
    let s3 := s2.drop dayDs.length
    if dayDs.isEmpty then none
    else
      match s3 with
      | ',' :: ' ' :: s4 =>
        let yearDs := (spanDigits s4).1
        if yearDs.isEmpty then none
        else NaiveDate.fromYmd? (Int.ofNat (digitsToNat yearDs)) m
          (digitsToNat dayDs)
      | _ => none
  | _, _ => none

/-- `date_from_html` (main.rs lines 123-134): scan the raw HTML for the
marked-up absolute timestamp and parse only its date portion; the chrono
`unwrap` panic on a captured text the format rejects is the `.error` case. -/
def date_from_html (html : List Char) : Except RtError (Option NaiveDate) :=
  match findFirst datetimeRe html with
  | none => .ok none
  | some (_, _, _, caps) =>
    match parseMonthDayYear (getCap caps 1) with
    | some d => .ok (some d)
    | none => .error (.panicked .badChronoFormat)

/-! ## src/main.rs: text extraction -/

/-- Transcription of `HTML_RE` (main.rs line 110): `<[^>]+>`. -/
def tagRe : Re :=
  .cat (.lit '<') (.cat (.plusG (.cls (fun c => c ≠ '>'))) (.lit '>'))

/-- Transcription of `MULTI_SPACE_RE` (main.rs line 111): `\s+`. -/
def multiSpaceRe : Re := .plusG sWs

/-- Transcription of `SPACE_PUNCTUATION_RE` (main.rs line 113):
a space before one of `,.!:;?`, the punctuation mark captured as group 1. -/
def spacePunctRe : Re :=
  .cat (.lit ' ')
    (.group 1 (.cls (fun c => [',', '.', '!', ':', ';', '?'].contains c)))

/-- Entity name up to `;` (alphanumeric names only). -/
def entitySpan : List Char → Option (List Char × List Char)
  | [] => none
  | ';' :: rest => some ([], rest)
  | c :: rest =>
    if c.isAlphanum then (entitySpan rest).map (fun x => (c :: x.1, x.2))
    else none

/-- The HTML entities appearing in this data source; a subset of the full
HTML5 table implemented by `htmlize::unescape`. -/
def namedEntity? (name : List Char) : Option Char :=
  if name = "nbsp".data then some '\u00A0'
  else if name = "amp".data then some '&'
  else if name = "lt".data then some '<'
  else if name = "gt".data then some '>'
  else if name = "quot".data then some '"'
  else none

/-- Model of `htmlize::unescape` restricted to `&name;` entities from the
table above; unknown or unterminated references are left as written.  Fuel is
the input length, which suffices because every step consumes at least one
character. -/
def unescapeAux : Nat → List Char → List Char
  | 0, s => s
  | _ + 1, [] => []
  | fuel + 1, c :: rest =>
    if c = '&' then
      match entitySpan rest with
      | some (name, after) =>
        match namedEntity? name with
        | some ch => ch :: unescapeAux fuel after
        | none => '&' :: unescapeAux fuel rest
      | none => '&' :: unescapeAux fuel rest
    else c :: unescapeAux fuel rest

/-- Entry point of the unescape model. -/
def unescape (s : List Char) : List Char := unescapeAux s.length s

/-- Rust `str::trim` (Unicode white space from both ends). -/
def trimUniWs (s : List Char) : List Char :=
  ((s.dropWhile isUniWs).reverse.dropWhile isUniWs).reverse

/-- `get_text_from_html` (main.rs lines 106-121): replace tags by spaces
(`stripped`), compress white-space runs to one space (`compressed`), delete
the space before sentence punctuation keeping the captured mark (`despaced`),
then decode entities and trim. -/
def get_text_from_html (html : List Char) : List Char :=
  trimUniWs (unescape
    (replaceAll spacePunctRe (fun mc => getCap mc.2 1)
      (replaceAll multiSpaceRe (fun _ => [' '])
        (replaceAll tagRe (fun _ => [' ']) html))))

/-! ## src/main.rs: inline-emphasis rewriting -/

/-- Transcription of `REPEATED_I_RE` (main.rs line 141):
`(<i>.*?</i>(\s|&nbsp;)*)+` — one or more `<i>...</i>` spans, lazily matched
inside, each followed by any run of white space or `&nbsp;` entities.  The
Rust pattern's capture groups are never read by the callback and are omitted
here. -/
def repeatedIRe : Re :=
  .plusG (.cat (.str "<i>") <| .cat (.starL (.cls (fun c => c ≠ '\n'))) <|
    .cat (.str "</i>") (.starG (.alt sWs (.str "&nbsp;"))))

/-- Transcription of `I_RE` (main.rs line 143): `</?i>`. -/
def iTagRe : Re :=
  .cat (.lit '<') (.cat (.optG (.lit '/')) (.cat (.lit 'i') (.lit '>')))

/-- Rust byte length of a string (`str::len`). -/
def utf8Len (s : List Char) : Nat := (s.map Char.utf8Size).sum

/-- `MIN_I_TEXT_LEN` (main.rs line 34). -/
def MIN_I_TEXT_LEN : Nat := 3

/-- `MAX_I_TEXT_LEN` (main.rs line 35). -/
def MAX_I_TEXT_LEN : Nat := 50

/-- The trim of main.rs line 153: strip leading and trailing characters that
are ASCII punctuation or ASCII white space. -/
def trimPunctWs (s : List Char) : List Char :=
  let p := fun c => isAsciiPunct c || isAsciiWs c
  ((s.dropWhile p).reverse.dropWhile p).reverse

/-- State threaded through the `replace_all` callback of `rewrite_i_tags`:
the `known_i_texts` hash set and the `i_texts` output vector. -/
structure ITexts where
  known : List (List Char)
  texts : List (List Char)
deriving DecidableEq, Repr

/-- The callback body of `rewrite_i_tags` (main.rs lines 146-164) for one
matched run: strip the `i` tags, wrap the rest in a single `<i>...</i>`,
compute the normalized comparison text, and record it when its byte length is
within bounds and it is new.  The produced markup is always the collapsed
span, independent of the bounds check. -/
def iTagStep (st : ITexts) (ihtml : List Char) : ITexts × List Char :=
  let output_html :=
    "<i>".data ++ replaceAll iTagRe (fun _ => []) ihtml ++ "</i>".data
  let text := trimPunctWs (get_text_from_html output_html)
  let len := utf8Len text
  if MIN_I_TEXT_LEN ≤ len && len ≤ MAX_I_TEXT_LEN then
    if st.known.contains text then (st, output_html)
    else (⟨text :: st.known, st.texts ++ [text]⟩, output_html)
  else (st, output_html)

/-- `rewrite_i_tags` (main.rs lines 136-167): rewrite every maximal matched
run through `iTagStep`, returning the new markup and the recorded texts. -/
def rewrite_i_tags (html : List Char) : List Char × List (List Char) :=
  let r := replaceAllSt repeatedIRe (fun st mc => iTagStep st mc.1) html
    ⟨[], []⟩
  (r.1, r.2.texts)

/-! ## src/main.rs: lead-text truncation -/

/-- `INITIAL_TEXT_MAX_LEN` (main.rs line 33). -/
def INITIAL_TEXT_MAX_LEN : Nat := 140

/-- Display width of a character, modelling the `unicode-width` data used by
`unicode_truncate`: zero for control characters, zero-width characters and
the common combining-mark blocks, two for the wide East-Asian and emoji
blocks, one otherwise. -/
def charWidth (c : Char) : Nat :=
  let n := c.toNat
  if n < 0x20 || n = 0x7F then 0
  else if (0x300 ≤ n && n ≤ 0x36F) || (0x1AB0 ≤ n && n ≤ 0x1AFF) ||
      (0x1DC0 ≤ n && n ≤ 0x1DFF) || (0x20D0 ≤ n && n ≤ 0x20FF) ||
      (0xFE20 ≤ n && n ≤ 0xFE2F) || (0x200B ≤ n && n ≤ 0x200F) then 0
  else if (0x1100 ≤ n && n ≤ 0x115F) || (0x2E80 ≤ n && n ≤ 0x303E) ||
      (0x3041 ≤ n && n ≤ 0x33FF) || (0x3400 ≤ n && n ≤ 0x4DBF) ||
      (0x4E00 ≤ n && n ≤ 0x9FFF) || (0xA000 ≤ n && n ≤ 0xA4CF) ||
      (0xAC00 ≤ n && n ≤ 0xD7A3) || (0xF900 ≤ n && n ≤ 0xFAFF) ||
      (0xFE30 ≤ n && n ≤ 0xFE4F) || (0xFF00 ≤ n && n ≤ 0xFF60) ||
      (0xFFE0 ≤ n && n ≤ 0xFFE6) || (0x1F300 ≤ n && n ≤ 0x1F64F) ||
      (0x1F900 ≤ n && n ≤ 0x1F9FF) || (0x20000 ≤ n && n ≤ 0x3FFFD) then 2
  else 1

/-- Model of `str::unicode_truncate(max)` from the `unicode-truncate` crate:
the longest prefix whose total display width does not exceed `max` (always a
whole-character prefix). -/
def unicodeTruncate : List Char → Nat → List Char
  | [], _ => []
  | c :: cs, w =>
    if charWidth c ≤ w then c :: unicodeTruncate cs (w - charWidth c)
    else []

/-- `get_initial_text_from_html` (main.rs lines 273-281): clean the fragment,
truncate to width 140, and append a literal `"..."` exactly when the
truncation shortened the byte length (`result.len() < text.len()`). -/
def get_initial_text_from_html (html : List Char) : List Char :=
  if utf8Len (unicodeTruncate (get_text_from_html html)
      INITIAL_TEXT_MAX_LEN) < utf8Len (get_text_from_html html) then
    unicodeTruncate (get_text_from_html html) INITIAL_TEXT_MAX_LEN ++
      "...".data
  else unicodeTruncate (get_text_from_html html) INITIAL_TEXT_MAX_LEN

/-! ## src/main.rs: page assembly (create_page_from_mhtml) -/

/-- Insertion-ordered association map modelling `HashMap<String, String>`
(later inserts shadow earlier ones). -/
abbrev SMap := List (List Char × List Char)

/-- `HashMap::get`. -/
def mapGet (m : SMap) (k : List Char) : Option (List Char) :=
  (m.find? (fun p => p.1 = k)).map Prod.snd

/-- The two maps and the counter built by the image loop of
`create_page_from_mhtml` (main.rs lines 305-332). -/
structure ImageMaps where
  image_to_path : SMap
  image_to_thumbnail : SMap
  num_images : Nat
deriving DecidableEq, Repr

/-- Zero-padded three-digit rendering used by `format!("{:03}.jpeg", n)`. -/
def pad3 (n : Nat) : List Char :=
  (if n < 10 then "00" else if n < 100 then "0" else "").data ++
    (toString n).data

/-- One step of the image loop (main.rs lines 316-332): only pieces whose
content type is `image/jpeg` and whose location occurs in the post's image
URLs are materialized and entered into the maps. -/
def imageStep (imagesDirName : List Char) (imageUrls : List (List Char))
    (m : ImageMaps) (piece : MhtmlPiece) : ImageMaps :=
  if piece.content_type = "image/jpeg".data ∧ piece.location ∈ imageUrls then
    let n := m.num_images + 1
    { image_to_path :=
        (piece.location, imagesDirName ++ '/' :: (pad3 n ++ ".jpeg".data)) ::
          m.image_to_path,
      image_to_thumbnail :=
        (piece.location,
          imagesDirName ++ '/' :: (pad3 n ++ "_thumbnail.jpeg".data)) ::
          m.image_to_thumbnail,
      num_images := n }
  else m

/-- The image loop over all pieces after the HTML part
(`doc.pieces.iter().skip(1)`). -/
def buildImageMaps (imagesDirName : List Char) (imageUrls : List (List Char))
    (pieces : List MhtmlPiece) : ImageMaps :=
  (pieces.drop 1).foldl (imageStep imagesDirName imageUrls)
    ⟨[], [], 0⟩

/-- The thumbnail collection loop (main.rs lines 333-337): image URLs in
document order, keeping those with a thumbnail entry. -/
def collectThumbnails (m : ImageMaps) (imageUrls : List (List Char)) :
    List (List Char) :=
  imageUrls.filterMap (mapGet m.image_to_thumbnail)

/-- The post-date fallback chain of `create_page_from_mhtml` (main.rs lines
338-344): the date extracted from the post HTML, else the first parseable
title date, else the local calendar date of the scrape timestamp.
`date_from_title` is only evaluated when the post date is absent, as in the
`else if let` chain. -/
def resolvePostDate (postDate : Option NaiveDate) (title : List Char)
    (scrape : DateTimeFO) : Except RtError NaiveDate :=
  match postDate with
  | some d => .ok d
  | none =>
    match date_from_title title with
    | .error e => .error e
    | .ok (some d) => .ok d
    | .ok none => .ok scrape.localDate

/-! ## src/main.rs: page records and ordering -/

/-- `Page` (main.rs lines 63-82); the fields are produced by
`create_page_from_mhtml`. -/
structure Page where
  title : List Char
  scrape_date : DateTimeFO
  post_date : NaiveDate
  original_url : List Char
  output_file : List Char
  images_dir : List Char
  initial_text : List Char
  thumbnails : List (List Char)
  i_text : List (List Char)
deriving DecidableEq, Repr

/-- Strict `<` of `chrono::NaiveDate` (year, then month, then day). -/
def dateLt (a b : NaiveDate) : Bool :=
  a.y < b.y || (a.y = b.y && (a.m < b.m || (a.m = b.m && a.d < b.d)))

/-- Strict lexicographic `<` of Rust `String` (byte order, which equals
code-point order under UTF-8). -/
def charsLt : List Char → List Char → Bool
  | [], [] => false
  | [], _ :: _ => true
  | _ :: _, [] => false
  | a :: as_, b :: bs =>
    if a < b then true
    else if a = b then charsLt as_ bs
    else false

/-- The comparator of `pages.sort_by` (main.rs lines 387-394) read as a
"not greater" relation: on equal post dates compare titles ascending,
otherwise compare post dates descending. -/
def pageLe (a b : Page) : Bool :=
  if a.post_date = b.post_date then !charsLt b.title a.title
  else dateLt b.post_date a.post_date

/-- `pageLe` as a relation for the sort. -/
def PageLeR (a b : Page) : Prop := pageLe a b = true

instance : DecidableRel PageLeR := fun a b => by
  unfold PageLeR; infer_instance

/-- Model of `pages.sort_by(...)` (main.rs lines 387-394).  Rust's
`slice::sort_by` is a stable sort; a stable sort's output is uniquely
determined by the comparator, so the stable `insertionSort` is an exact
model. -/
def sortPages (pages : List Page) : List Page :=
  List.insertionSort PageLeR pages

/-! ## src/main.rs: create_page_from_mhtml prelude -/

/-- ASCII alphanumeric test (`u8::is_ascii_alphanumeric`). -/
def isAsciiAlphanum (c : Char) : Bool :=
  (0x30 ≤ c.toNat && c.toNat ≤ 0x39) || (0x41 ≤ c.toNat && c.toNat ≤ 0x5A) ||
  (0x61 ≤ c.toNat && c.toNat ≤ 0x7A)

/-- ASCII lower-casing (`make_ascii_lowercase`). -/
def toAsciiLower (c : Char) : Char :=
  if 0x41 ≤ c.toNat && c.toNat ≤ 0x5A then Char.ofNat (c.toNat + 0x20) else c

/-- The title flattening of main.rs lines 294-296: `/` and space to `_`,
keep only ASCII alphanumerics and `_`, lower-case. -/
def flattenTitle (title : List Char) : List Char :=
  ((title.map (fun c => if c = '/' then '_' else c)).map
      (fun c => if c = ' ' then '_' else c)).filter
    (fun c => isAsciiAlphanum c || c = '_') |>.map toAsciiLower

/-- Lower-case hex digits of a natural number (`format!("{:x}", _)`). -/
def natToHexAux : Nat → Nat → List Char
  | 0, _ => []
  | fuel + 1, n =>
    if n = 0 then []
    else
      natToHexAux fuel (n / 16) ++
        [if n % 16 < 10 then Char.ofNat (0x30 + n % 16)
         else Char.ofNat (0x61 + n % 16 - 10)]

/-- Hex rendering; `0` prints as `"0"`. -/
def natToHex (n : Nat) : List Char :=
  if n = 0 then ['0'] else natToHexAux (n + 1) n

/-- The pure prelude of `create_page_from_mhtml` (main.rs lines 283-314):
parse the archive, fill the page header fields and generated names, and
reject a document with no pieces (`"MHTML has no data"`) before part 0 is
used; the rest of the function hands part 0 to the scraper-based extractor
and performs file IO, outside this model.  `hashFn` abstracts
`calculate_hash` (Rust `DefaultHasher`, whose keys the std library does not
specify). -/
def create_page_prelude (hashFn : List Char → Nat) (contents : List Char) :
    Except RtError (MhtmlDoc × Page) :=
  match parse contents with
  | .error e => .error e
  | .ok doc =>
    let basename :=
      flattenTitle doc.subject ++ '_' :: natToHex (hashFn doc.location)
    let page : Page :=
      { title := doc.subject
        scrape_date := doc.date
        post_date := ⟨1970, 1, 1⟩  -- chrono NaiveDate::default, from Page::default()
        original_url := doc.location
        output_file := basename ++ ".html".data
        images_dir := basename ++ "_images".data
        initial_text := []
        thumbnails := []
        i_text := [] }
    if doc.pieces.isEmpty then .error (.ioError .noData)
    else if (doc.pieces.headD ⟨[], [], []⟩).content_type ≠ "text/html".data
    then .error (.ioError .notTextHtml)
    else .ok (doc, page)

/-- `date_from_html` composed with the fallback chain, the combination the
claims about `create_page_from_mhtml` quantify over (`post.date` is set from
`date_from_html` in `parse_groups_post`, main.rs line 171, and consumed at
lines 338-344). -/
def resolveFromHtml (html title : List Char) (scrape : DateTimeFO) :
    Except RtError NaiveDate :=
  match date_from_html html with
  | .error e => .error e
  | .ok pd => resolvePostDate pd title scrape

/-! ## Spec-side definition for the boundary-handling refinement claim -/

/-- Follows the spec's words (§4.2 step 2): the delimiter is "the literal
sequence possibly prefixed/suffixed by dash runs and bordered by line
breaks" — the boundary token matched as a literal byte sequence, not
interpreted as a pattern.  This is the comparison point for the claim that
the code treats the token literally. -/
def specLiteralBoundaryRe (boundary : List Char) : Re :=
  .cat (.starG (.cls (fun c => c = '\r' || c = '\n'))) <|
  .cat (.starG (.lit '-')) <|
  .cat (boundary.foldr (fun c r => .cat (.lit c) r) .eps) <|
  .cat (.starG (.lit '-')) (.starG (.cls (fun c => c = '\r' || c = '\n')))

/-- `parse` with the spec's literal boundary treatment substituted for the
code's unescaped pattern splice: identical in every other respect. -/
def parseLiteralBoundary (contents : List Char) : Except RtError MhtmlDoc :=
  match matchAt headerRe contents with
  | none => .error (.ioError .docHeaderMismatch)
  | some (_, rest, caps) =>
    match parseRfc2822 (getCap caps 3) with
    | none => .error (.panicked .malformedDate)
    | some date =>
      (((splitRe (specLiteralBoundaryRe (getCap caps 4)) rest).filter
          (fun f => !f.isEmpty)).mapM parse_mhtml_piece).map
        (fun pieces => ⟨getCap caps 2, date, getCap caps 1, pieces⟩)

/-! ## Match enumeration (for stating properties of replace_all) -/

/-- The successive leftmost matches that `replace_all` rewrites, in order. -/
def foundMatchesAux (r : Re) : Nat → List Char → List (List Char × Caps)
  | 0, _ => []
  | fuel + 1, s =>
    match findFirst r s with
    | none => []
    | some (_, m, rest, caps) =>
      if m.isEmpty then
        match rest with
        | [] => [(m, caps)]
        | _ :: cs => (m, caps) :: foundMatchesAux r fuel cs
      else (m, caps) :: foundMatchesAux r fuel rest

/-- Matches rewritten by `replace_all` on `s`. -/
def foundMatches (r : Re) (s : List Char) : List (List Char × Caps) :=
  foundMatchesAux r (s.length + 1) s

/-! ## Specification helpers for the emphasized-text bookkeeping -/

/-- The normalized comparison text the callback computes for one matched run
(main.rs lines 147-155): strip the `i` tags, wrap in one emphasis element,
take its plain text, trim ASCII punctuation and white space. -/
def normalizeIText (ihtml : List Char) : List Char :=
  trimPunctWs (get_text_from_html
    ("<i>".data ++ replaceAll iTagRe (fun _ => []) ihtml ++ "</i>".data))

/-- The byte-length bound of main.rs line 157. -/
def iTextInBounds (t : List Char) : Bool :=
  MIN_I_TEXT_LEN ≤ utf8Len t && utf8Len t ≤ MAX_I_TEXT_LEN

/-- Keep the first occurrence of every element, dropping later duplicates
(fuel-indexed; `keepFirst` supplies the length). -/
def keepFirstAux : Nat → List (List Char) → List (List Char)
  | 0, _ => []
  | _, [] => []
  | fuel + 1, t :: ts => t :: keepFirstAux fuel (ts.filter (fun u => u ≠ t))

/-- First-occurrence deduplication, the order-preserving set semantics of the
`known_i_texts` hash set. -/
def keepFirst (ts : List (List Char)) : List (List Char) :=
  keepFirstAux ts.length ts

/-! ## Cleanliness predicates for the lead-text idempotence statement -/

/-- No two adjacent spaces. -/
def noDoubleSpace : List Char → Bool
  | [] => true
  | [_] => true
  | a :: b :: rest => !(a = ' ' && b = ' ') && noDoubleSpace (b :: rest)

/-- The sentence punctuation of `SPACE_PUNCTUATION_RE`. -/
def sentencePunct : List Char := [',', '.', '!', ':', ';', '?']

/-- No space immediately before sentence punctuation. -/
def noSpacePunct : List Char → Bool
  | [] => true
  | [_] => true
  | a :: b :: rest =>
    !(a = ' ' && sentencePunct.contains b) && noSpacePunct (b :: rest)

/-- Total display width. -/
def widthSum (s : List Char) : Nat := (s.map charWidth).sum

/-- Strings on which every pass of `lead_text` is the identity: free of `<`
and `&`, all white space is a single ASCII space, no space before sentence
punctuation, no surrounding space, display width within the truncation
budget. -/
def leadClean (s : List Char) : Bool :=
  s.all (fun c => c ≠ '<' && c ≠ '&' && (!isUniWs c || c = ' ')) &&
  noDoubleSpace s && noSpacePunct s &&
  s.head? ≠ some ' ' && s.getLast? ≠ some ' ' &&
  widthSum s ≤ INITIAL_TEXT_MAX_LEN

/-- A run of 150 letters, long enough to trigger truncation. -/
def aRun : List Char := List.replicate 150 'a'

/-- A run of 150 zero-width combining marks (U+0301): its total display
width is 0, so the truncation keeps all 150 characters. -/
def zwRun : List Char := List.replicate 150 '\u0301'

/-- 138 letters followed by the three-code-point emoji grapheme cluster
MAN (U+1F468), ZERO WIDTH JOINER (U+200D), WOMAN (U+1F469): the width
budget runs out between the joiner and the second emoji, inside the
cluster. -/
def zwjRun : List Char :=
  List.replicate 138 'a' ++
    [Char.ofNat 0x1F468, Char.ofNat 0x200D, Char.ofNat 0x1F469]

/-! ## Concrete inputs used by the claim theorems -/

/-- A well-formed archive whose declared boundary `a.b+c` contains the regex
metacharacters `.` and `+`; its single part is base64 with the line `azbc`
in the payload — a line that does not contain the boundary token but does
match it when the token is read as a pattern. -/
def docBoundaryMeta : List Char :=
  ("From: someone\nSnapshot-Content-Location: http://example.com/post\n" ++
   "Subject: Hello\nDate: Wed, 01 Jan 2020 00:00:00 +0000\n" ++
   "MIME-Version: 1.0\nContent-Type: multipart/related;\n" ++
   " type=\"text/html\";\n boundary=\"a.b+c\"\n" ++
   "--a.b+c\nContent-Type: text/html\nContent-Transfer-Encoding: base64\n" ++
   "Content-Location: http://example.com/x\n\nYWJj\nazbc\nYWJj\n" ++
   "--a.b+c--\n").data

/-- The body text of the single part of `docBoundaryMeta`, between the two
literal delimiter lines. -/
def bodyBoundaryMeta : List Char :=
  ("Content-Type: text/html\nContent-Transfer-Encoding: base64\n" ++
   "Content-Location: http://example.com/x\n\nYWJj\nazbc\nYWJj").data

/-- A well-formed archive header whose body consists of a single closing
delimiter, so the boundary split produces no nonempty fragment. -/
def docNoParts : List Char :=
  ("From: someone\nSnapshot-Content-Location: http://example.com/post\n" ++
   "Subject: Hello\nDate: Wed, 01 Jan 2020 00:00:00 +0000\n" ++
   "MIME-Version: 1.0\nContent-Type: multipart/related;\n" ++
   " type=\"text/html\";\n boundary=\"xyz\"\n--xyz--\n").data

/-- The document `parse` returns for `docNoParts`: the header fields with an
empty piece list. -/
def docNoPartsParsed : MhtmlDoc :=
  ⟨"Hello".data, ⟨⟨2020, 1, 1⟩, 0, 0, 0, 0⟩,
    "http://example.com/post".data, []⟩

/-- A well-formed archive whose `Date:` header line fits the header shape but
is not an RFC 2822 date. -/
def docBadDate : List Char :=
  ("From: someone\nSnapshot-Content-Location: http://example.com/post\n" ++
   "Subject: Hello\nDate: not a date\n" ++
   "MIME-Version: 1.0\nContent-Type: multipart/related;\n" ++
   " type=\"text/html\";\n boundary=\"xyz\"\n--xyz--\n").data

/-- A piece whose header is well-formed but whose base64 payload `!!!` uses
characters outside the alphabet. -/
def pieceBadBase64 : List Char :=
  ("Content-Type: text/html\nContent-Transfer-Encoding: base64\n" ++
   "Content-Location: http://x\n!!!").data

/-- A piece whose quoted-printable payload `=zz` has an invalid escape. -/
def pieceBadQP : List Char :=
  ("Content-Type: text/html\n" ++
   "Content-Transfer-Encoding: quoted-printable\n" ++
   "Content-Location: http://x\n=zz").data

/-- An archive part that is an image but not a JPEG. -/
def pngPiece : MhtmlPiece :=
  ⟨"image/png".data, "http://example.com/i.png".data, [1, 2, 3]⟩

/-- The HTML part occupying position 0. -/
def htmlPiece : MhtmlPiece :=
  ⟨"text/html".data, "http://example.com/post".data, []⟩

/-- An archive part that is a JPEG image. -/
def jpegPiece : MhtmlPiece :=
  ⟨"image/jpeg".data, "http://example.com/i.jpg".data, [9]⟩

/-- Sequence `pat` begins `s`. -/
def seqStarts : List Char → List Char → Bool
  | [], _ => true
  | _ :: _, [] => false
  | p :: ps, c :: cs => p = c && seqStarts ps cs

/-- Sequence `pat` occurs somewhere inside `s`. -/
def seqHasSub (pat : List Char) : List Char → Bool
  | [] => seqStarts pat []
  | c :: cs => seqStarts pat (c :: cs) || seqHasSub pat cs

/-- Two pages with the same post date and titles `B` and `A`. -/
def pageTitleB : Page :=
  ⟨"B".data, ⟨⟨2020, 1, 1⟩, 0, 0, 0, 0⟩, ⟨2023, 7, 19⟩, [], [], [], [], [],
    []⟩

/-- Companion page with title `A`. -/
def pageTitleA : Page :=
  ⟨"A".data, ⟨⟨2020, 1, 1⟩, 0, 0, 0, 0⟩, ⟨2023, 7, 19⟩, [], [], [], [], [],
    []⟩

/-- A page with an earlier post date. -/
def pageOlder : Page :=
  ⟨"older".data, ⟨⟨2020, 1, 1⟩, 0, 0, 0, 0⟩, ⟨2021, 3, 2⟩, [], [], [], [],
    [], []⟩

/-- A page with a later post date. -/
def pageNewer : Page :=
  ⟨"newer".data, ⟨⟨2020, 1, 1⟩, 0, 0, 0, 0⟩, ⟨2022, 1, 30⟩, [], [], [], [],
    [], []⟩

/-! # Theorems -/

/-- C5: emphasis coalescing collapses a run of emphasis elements separated
only by plain or non-breaking white space into one emphasis element whose
text concatenates the run with the separators preserved as written, without
merging across other tags: `<i>hi</i> <i>there</i><br><i>hi there</i>`
rewrites to `<i>hi there</i><br><i>hi there</i>` with the single recorded
unique text `hi there`, and `<i>hi</i>&nbsp;<i>there</i>` rewrites to
`<i>hi&nbsp;there</i>` with recorded text `hi U+00A0 there` (the non-breaking
space preserved, not collapsed to an ASCII space). -/
theorem C5_emphasis_coalescing :
    rewrite_i_tags "<i>hi</i> <i>there</i><br><i>hi there</i>".data =
      ("<i>hi there</i><br><i>hi there</i>".data, ["hi there".data]) ∧
    rewrite_i_tags "<i>hi</i>&nbsp;<i>there</i>".data =
      ("<i>hi&nbsp;there</i>".data,
        [['h', 'i', '\u00A0', 't', 'h', 'e', 'r', 'e']]) :=
  ⟨by decide, by decide⟩

/-- C1: the code does not treat the boundary token literally.  On the
well-formed archive `docBoundaryMeta`, whose declared boundary `a.b+c`
contains regex metacharacters, the part payload line `azbc` — which does not
contain the boundary token — matches the spliced delimiter pattern, so the
split severs the part and `parse` fails; substituting the spec's literal
delimiter (`parseLiteralBoundary`) decodes the same document into its single
intended part. -/
theorem C1_boundary_token_used_as_pattern :
    parse docBoundaryMeta = .error (.ioError .pieceHeaderMismatch) ∧
    parseLiteralBoundary docBoundaryMeta =
      .ok ⟨"Hello".data, ⟨⟨2020, 1, 1⟩, 0, 0, 0, 0⟩,
        "http://example.com/post".data,
        [⟨"text/html".data, "http://example.com/x".data,
          [97, 98, 99, 107, 54, 220, 97, 98, 99]⟩]⟩ ∧
    seqHasSub "a.b+c".data bodyBoundaryMeta = false :=
  ⟨by decide, by decide, by decide⟩

/-- C8 counterexample: `parse` does not require at least one part — on the
well-formed header-only archive `docNoParts`, whose body splits into zero
nonempty fragments, it returns a document with an empty piece sequence
instead of failing. -/
theorem C8_counterexample :
    parse docNoParts = .ok docNoPartsParsed ∧ docNoPartsParsed.pieces = [] :=
  ⟨by decide, rfl⟩

/-- C8 (amended): the at-least-one-part requirement is enforced by the
caller, not by `parse`: whenever `parse` succeeds with an empty piece
sequence, `create_page_from_mhtml` fails with the `"MHTML has no data"`
error before part 0 is used. -/
theorem C8_empty_doc_rejected_by_caller (contents : List Char)
    (doc : MhtmlDoc) (hashFn : List Char → Nat)
    (hparse : parse contents = .ok doc) (hempty : doc.pieces = []) :
    create_page_prelude hashFn contents = .error (.ioError .noData) := by
  unfold create_page_prelude
  rw [hparse]
  simp [hempty]

/-- Witness for the amended C8 on the concrete empty archive. -/
theorem C8_empty_doc_rejected_by_caller_witness :
    create_page_prelude (fun _ => 0) docNoParts =
      .error (.ioError .noData) :=
  C8_empty_doc_rejected_by_caller docNoParts docNoPartsParsed (fun _ => 0)
    (by decide) rfl

/-- C2 counterexample: a base64 payload outside the alphabet does not yield
a typed `DecodeError::Malformed` value — the decode `unwrap` terminates the
task (the `panicked` outcome, distinct from every `ioError`). -/
theorem C2_counterexample :
    parse_mhtml_piece pieceBadBase64 = .error (.panicked .badBase64) := by
  decide

/-- C2 (amended): header-shape deviations (missing or reordered fields) do
fail with the typed header errors, but the other failures terminate the
task: an invalid base64 payload panics in the decoder, a `Date:` line that
fits the header shape without being an RFC 2822 date panics in the date
`unwrap`, and an unrecognized transfer-encoding token panics — so typed
failure is limited to header mismatches rather than covering payload and
date errors as claimed. -/
theorem C2_error_propagation :
    (∀ text : List Char, matchAt sectionRe text = none →
      parse_mhtml_piece text = .error (.ioError .pieceHeaderMismatch)) ∧
    (∀ contents : List Char, matchAt headerRe contents = none →
      parse contents = .error (.ioError .docHeaderMismatch)) ∧
    (∀ text m rest caps, matchAt sectionRe text = some (m, rest, caps) →
      getCap caps 2 ≠ "base64".data →
      getCap caps 2 ≠ "quoted-printable".data →
      parse_mhtml_piece text = .error (.panicked .unknownEncoding)) ∧
    parse_mhtml_piece pieceBadBase64 = .error (.panicked .badBase64) ∧
    parse_mhtml_piece pieceBadQP =
      .error (.panicked .badQuotedPrintable) ∧
    parse docBadDate = .error (.panicked .malformedDate) := by
  refine ⟨?_, ?_, ?_, by decide, by decide, by decide⟩
  · intro text h
    unfold parse_mhtml_piece
    rw [h]
  · intro contents h
    unfold parse
    rw [h]
  · intro text m rest caps h hb hq
    unfold parse_mhtml_piece
    rw [h]
    simp only [if_neg hb, if_neg hq]

/-- Witness for the amended C2: the universal header-mismatch parts applied
to concrete inputs. -/
theorem C2_error_propagation_witness :
    parse_mhtml_piece "garbage".data =
      .error (.ioError .pieceHeaderMismatch) ∧
    parse "garbage".data = .error (.ioError .docHeaderMismatch) :=
  ⟨C2_error_propagation.1 "garbage".data (by decide),
    C2_error_propagation.2.1 "garbage".data (by decide)⟩

/-- C4: the post date is resolved by the fixed-priority fallback chain of
`create_page_from_mhtml`: first the absolute marked-up timestamp found in the
raw HTML (date portion only), else the first numeric M/D/Y date of the title,
else the local calendar date of the archive capture timestamp; in particular
when neither date source yields a value, the resolved date is the capture
date's local calendar date. -/
theorem C4_date_fallback_chain (html title : List Char)
    (scrape : DateTimeFO) :
    (∀ d, date_from_html html = .ok (some d) →
      resolveFromHtml html title scrape = .ok d) ∧
    (∀ d, date_from_html html = .ok none →
      date_from_title title = .ok (some d) →
      resolveFromHtml html title scrape = .ok d) ∧
    (date_from_html html = .ok none → date_from_title title = .ok none →
      resolveFromHtml html title scrape = .ok scrape.localDate) := by
  refine ⟨?_, ?_, ?_⟩
  · intro d h
    unfold resolveFromHtml
    rw [h]
    rfl
  · intro d h h2
    unfold resolveFromHtml
    rw [h]
    show resolvePostDate none title scrape = .ok d
    unfold resolvePostDate
    rw [h2]
  · intro h h2
    unfold resolveFromHtml
    rw [h]
    show resolvePostDate none title scrape = .ok scrape.localDate
    unfold resolvePostDate
    rw [h2]

/-- Witness for C4 on inputs with no embedded date and no title date. -/
theorem C4_date_fallback_chain_witness :
    resolveFromHtml "x".data "y".data ⟨⟨2020, 5, 6⟩, 1, 2, 3, 60⟩ =
      .ok ⟨2020, 5, 6⟩ :=
  (C4_date_fallback_chain "x".data "y".data ⟨⟨2020, 5, 6⟩, 1, 2, 3, 60⟩).2.2
    (by decide) (by decide)

/-- C10: when the title's first numeric M/D/Y match has in-range integer
components that do not form a valid calendar date, `date_from_title` returns
`None` — neither a typed error nor a panic — and, absent an embedded
absolute date, the resolved post date falls through to the capture
timestamp's local calendar date. -/
theorem C10_invalid_title_date_falls_through
    (title html : List Char) (scrape : DateTimeFO)
    (pre mt rest : List Char) (caps : Caps)
    (hfind : findFirst titleDateRe title = some (pre, mt, rest, caps))
    (hy : digitsToNat (getCap caps 3) < 2 ^ 31)
    (hm : digitsToNat (getCap caps 1) < 2 ^ 32)
    (hd : digitsToNat (getCap caps 2) < 2 ^ 32)
    (hinvalid : NaiveDate.fromYmd?
      (if (Int.ofNat (digitsToNat (getCap caps 3)) : Int) < 100 then
        Int.ofNat (digitsToNat (getCap caps 3)) + 2000
      else Int.ofNat (digitsToNat (getCap caps 3)))
      (digitsToNat (getCap caps 1)) (digitsToNat (getCap caps 2)) = none)
    (hhtml : date_from_html html = .ok none) :
    date_from_title title = .ok none ∧
    resolveFromHtml html title scrape = .ok scrape.localDate := by
  have h1 : date_from_title title = .ok none := by
    unfold date_from_title
    rw [hfind]
    dsimp only
    rw [if_pos ⟨hy, hm, hd⟩, hinvalid]
  refine ⟨h1, ?_⟩
  unfold resolveFromHtml
  rw [hhtml]
  show resolvePostDate none title scrape = .ok scrape.localDate
  unfold resolvePostDate
  rw [h1]

/-- Witness for C10 on the title `13/32/2023` (month 13, day 32). -/
theorem C10_invalid_title_date_falls_through_witness :
    date_from_title "13/32/2023".data = .ok none ∧
    resolveFromHtml "x".data "13/32/2023".data ⟨⟨2020, 5, 6⟩, 1, 2, 3, 60⟩ =
      .ok ⟨2020, 5, 6⟩ :=
  C10_invalid_title_date_falls_through "13/32/2023".data "x".data
    ⟨⟨2020, 5, 6⟩, 1, 2, 3, 60⟩
    [] "13/32/2023".data []
    [(3, "2023".data), (2, "32".data), (1, "13".data)]
    (by rfl) (by decide) (by decide) (by decide) (by decide) (by decide)

/-! ### Order lemmas for the page comparator -/

theorem charsLt_irrefl (s : List Char) : charsLt s s = false := by
  induction s with
  | nil => rfl
  | cons c cs ih => simp [charsLt, ih]

theorem charsLt_trans {a b c : List Char} (h1 : charsLt a b = true)
    (h2 : charsLt b c = true) : charsLt a c = true := by
  induction a generalizing b c with
  | nil =>
    cases c with
    | nil =>
      cases b with
      | nil => exact h1
      | cons d ds => simp [charsLt] at h2
    | cons e es => rfl
  | cons x xs ih =>
    cases b with
    | nil => simp [charsLt] at h1
    | cons y ys =>
      cases c with
      | nil => simp [charsLt] at h2
      | cons z zs =>
        simp only [charsLt] at h1 h2 ⊢
        rcases lt_trichotomy x y with hxy | hxy | hxy
        · rcases lt_trichotomy y z with hyz | hyz | hyz
          · simp [lt_trans hxy hyz]
          · subst hyz; simp [hxy]
          · rw [if_neg (lt_asymm hyz), if_neg (ne_of_gt hyz)] at h2
            exact absurd h2 (by simp)
        · subst hxy
          rcases lt_trichotomy x z with hxz | hxz | hxz
          · simp [hxz]
          · subst hxz
            rw [if_neg (lt_irrefl x), if_pos rfl] at h1 h2 ⊢
            exact ih h1 h2
          · rw [if_neg (lt_asymm hxz), if_neg (ne_of_gt hxz)] at h2
            exact absurd h2 (by simp)
        · rw [if_neg (lt_asymm hxy), if_neg (ne_of_gt hxy)] at h1
          exact absurd h1 (by simp)

theorem charsLt_asymm {a b : List Char} (h : charsLt a b = true) :
    charsLt b a = false := by
  by_contra hc
  have hba : charsLt b a = true := by
    cases hv : charsLt b a with
    | true => rfl
    | false => exact absurd hv hc
  have := charsLt_trans h hba
  rw [charsLt_irrefl] at this
  exact absurd this (by simp)

theorem charsLt_conn {a b : List Char} (h1 : charsLt a b = false)
    (h2 : charsLt b a = false) : a = b := by
  induction a generalizing b with
  | nil =>
    cases b with
    | nil => rfl
    | cons d ds => simp [charsLt] at h1
  | cons x xs ih =>
    cases b with
    | nil => simp [charsLt] at h2
    | cons y ys =>
      simp only [charsLt] at h1 h2
      rcases lt_trichotomy x y with hxy | hxy | hxy
      · rw [if_pos hxy] at h1; exact absurd h1 (by simp)
      · subst hxy
        rw [if_neg (lt_irrefl x), if_pos rfl] at h1 h2
        rw [ih h1 h2]
      · rw [if_pos hxy] at h2; exact absurd h2 (by simp)

theorem charsLt_false_trans {a b c : List Char}
    (h1 : charsLt b a = false) (h2 : charsLt c b = false) :
    charsLt c a = false := by
  cases hv : charsLt c a with
  | false => rfl
  | true =>
    cases hw : charsLt b c with
    | true =>
      rw [charsLt_trans hw hv] at h1
      exact absurd h1 (by simp)
    | false =>
      have hcb : c = b := charsLt_conn h2 hw
      rw [hcb] at hv
      rw [hv] at h1
      exact absurd h1 (by simp)

theorem dateLt_irrefl (a : NaiveDate) : dateLt a a = false := by
  simp [dateLt]

theorem dateLt_trans {a b c : NaiveDate} (h1 : dateLt a b = true)
    (h2 : dateLt b c = true) : dateLt a c = true := by
  simp only [dateLt, Bool.or_eq_true, Bool.and_eq_true, decide_eq_true_eq]
    at h1 h2 ⊢
  omega

theorem dateLt_conn {a b : NaiveDate} (h1 : dateLt a b = false)
    (h2 : dateLt b a = false) : a = b := by
  cases a with
  | mk ay am ad =>
    cases b with
    | mk by_ bm bd =>
      simp only [dateLt, Bool.or_eq_false_iff, Bool.and_eq_false_iff,
        decide_eq_false_iff_not, not_lt, NaiveDate.mk.injEq] at h1 h2 ⊢
      omega

theorem dateLt_connex {a b : NaiveDate} (h : a ≠ b) :
    dateLt a b = true ∨ dateLt b a = true := by
  cases hab : dateLt a b with
  | true => exact Or.inl rfl
  | false =>
    cases hba : dateLt b a with
    | true => exact Or.inr rfl
    | false => exact absurd (dateLt_conn hab hba) h

instance : IsTotal Page PageLeR := by
  constructor
  intro a b
  unfold PageLeR pageLe
  by_cases hd : a.post_date = b.post_date
  · rw [if_pos hd, if_pos hd.symm]
    cases hlt : charsLt b.title a.title with
    | false => left; simp
    | true => right; simp [charsLt_asymm hlt]
  · rw [if_neg hd, if_neg (Ne.symm hd)]
    exact (dateLt_connex (Ne.symm hd)).imp id id

instance : IsTrans Page PageLeR := by
  constructor
  intro a b c hab hbc
  unfold PageLeR pageLe at hab hbc ⊢
  by_cases hab_d : a.post_date = b.post_date
  · by_cases hbc_d : b.post_date = c.post_date
    · have hac_d : a.post_date = c.post_date := hab_d.trans hbc_d
      rw [if_pos hab_d] at hab
      rw [if_pos hbc_d] at hbc
      rw [if_pos hac_d]
      simp only [Bool.not_eq_true'] at hab hbc ⊢
      exact charsLt_false_trans hab hbc
    · have hac_d : a.post_date ≠ c.post_date := by rw [hab_d]; exact hbc_d
      rw [if_neg hbc_d] at hbc
      rw [if_neg hac_d]
      rw [← hab_d] at hbc
      exact hbc
  · by_cases hbc_d : b.post_date = c.post_date
    · have hac_d : a.post_date ≠ c.post_date := by
        rw [← hbc_d]; exact hab_d
      rw [if_neg hab_d] at hab
      rw [if_neg hac_d]
      rw [← hbc_d]
      exact hab
    · rw [if_neg hab_d] at hab
      rw [if_neg hbc_d] at hbc
      have hlt := dateLt_trans hbc hab
      have hac_d : a.post_date ≠ c.post_date := by
        intro he
        rw [he] at hlt
        rw [dateLt_irrefl] at hlt
        exact absurd hlt (by simp)
      rw [if_neg hac_d]
      exact hlt

/-- C9: the final batch is totally ordered by descending post date with
ascending case-sensitive title as tie-break, whatever order the per-file
results arrived in: the sorted output of `sort_by` is sorted under the
comparator relation and is a permutation of the input, equal dates with
titles `B` and `A` order `A` first, and unequal dates order the later date
first. -/
theorem C9_sort_order :
    (∀ pages : List Page,
      List.Sorted PageLeR (sortPages pages) ∧
        (sortPages pages).Perm pages) ∧
    sortPages [pageTitleB, pageTitleA] = [pageTitleA, pageTitleB] ∧
    sortPages [pageOlder, pageNewer] = [pageNewer, pageOlder] :=
  ⟨fun pages =>
    ⟨List.sorted_insertionSort PageLeR pages,
      List.perm_insertionSort PageLeR pages⟩,
    by decide, by decide⟩

/-! ### Image materialization lemmas -/

theorem mapGet_cons (k v : List Char) (m : SMap) (url : List Char) :
    mapGet ((k, v) :: m) url = if k = url then some v else mapGet m url := by
  unfold mapGet
  by_cases h : k = url
  · simp [List.find?, h]
  · simp [List.find?, h]

theorem buildImageMaps_fold_some (imagesDir url : List Char)
    (urls : List (List Char)) (hurl : url ∈ urls) :
    ∀ (ps : List MhtmlPiece) (m : ImageMaps),
      ((∃ path, mapGet m.image_to_path url = some path ∧
          ∃ rest, path = imagesDir ++ '/' :: rest) ∨
        (∃ p ∈ ps, p.content_type = "image/jpeg".data ∧ p.location = url)) →
      ∃ path,
        mapGet (ps.foldl (imageStep imagesDir urls) m).image_to_path url =
          some path ∧ ∃ rest, path = imagesDir ++ '/' :: rest := by
  intro ps
  induction ps with
  | nil =>
    intro m h
    rcases h with h | ⟨p, hp, _⟩
    · exact h
    · simp at hp
  | cons q ps ih =>
    intro m h
    rw [List.foldl_cons]
    apply ih
    rcases h with ⟨path, hget, hshape⟩ | ⟨p, hp, hj, hl⟩
    · left
      unfold imageStep
      by_cases hcond : q.content_type = "image/jpeg".data ∧ q.location ∈ urls
      · rw [if_pos hcond]
        dsimp only
        rw [mapGet_cons]
        by_cases hk : q.location = url
        · rw [if_pos hk]
          exact ⟨_, rfl, _, rfl⟩
        · rw [if_neg hk]
          exact ⟨path, hget, hshape⟩
      · rw [if_neg hcond]
        exact ⟨path, hget, hshape⟩
    · rcases List.mem_cons.mp hp with hq | hps
      · left
        subst hq
        unfold imageStep
        rw [if_pos ⟨hj, hl ▸ hurl⟩]
        dsimp only
        rw [mapGet_cons, if_pos hl]
        exact ⟨_, rfl, _, rfl⟩
      · right
        exact ⟨p, hps, hj, hl⟩

theorem buildImageMaps_fold_none (imagesDir url : List Char)
    (urls : List (List Char)) :
    ∀ (ps : List MhtmlPiece) (m : ImageMaps),
      mapGet m.image_to_path url = none →
      mapGet m.image_to_thumbnail url = none →
      (∀ p ∈ ps,
        ¬(p.content_type = "image/jpeg".data ∧ p.location = url)) →
      mapGet (ps.foldl (imageStep imagesDir urls) m).image_to_path url =
        none ∧
      mapGet
          (ps.foldl (imageStep imagesDir urls) m).image_to_thumbnail url =
        none := by
  intro ps
  induction ps with
  | nil =>
    intro m h1 h2 _
    exact ⟨h1, h2⟩
  | cons q ps ih =>
    intro m h1 h2 hnone
    rw [List.foldl_cons]
    have hq := hnone q (List.mem_cons_self q ps)
    have hrest : ∀ p ∈ ps,
        ¬(p.content_type = "image/jpeg".data ∧ p.location = url) :=
      fun p hp => hnone p (List.mem_cons_of_mem q hp)
    apply ih
    · unfold imageStep
      by_cases hcond : q.content_type = "image/jpeg".data ∧ q.location ∈ urls
      · rw [if_pos hcond]
        dsimp only
        rw [mapGet_cons]
        have hk : q.location ≠ url := fun he => hq ⟨hcond.1, he⟩
        rw [if_neg hk]
        exact h1
      · rw [if_neg hcond]
        exact h1
    · unfold imageStep
      by_cases hcond : q.content_type = "image/jpeg".data ∧ q.location ∈ urls
      · rw [if_pos hcond]
        dsimp only
        rw [mapGet_cons]
        have hk : q.location ≠ url := fun he => hq ⟨hcond.1, he⟩
        rw [if_neg hk]
        exact h2
      · rw [if_neg hcond]
        exact h2
    · exact hrest

/-- C3 counterexample: a URL of `image_urls` equal to the location of a
sibling part whose content type is `image/png` is not resolved — the
materialization loop only considers `image/jpeg` parts, so the lookup that
drives linking and storage finds nothing, contradicting the claim that every
URL matching any sibling part location is resolved. -/
theorem C3_counterexample :
    pngPiece ∈ [htmlPiece, pngPiece].drop 1 ∧
    pngPiece.location = "http://example.com/i.png".data ∧
    "http://example.com/i.png".data ∈ ["http://example.com/i.png".data] ∧
    mapGet (buildImageMaps "d".data ["http://example.com/i.png".data]
        [htmlPiece, pngPiece]).image_to_path
      "http://example.com/i.png".data = none := by
  refine ⟨by decide, by decide, by decide, by decide⟩

/-- C3 (amended): a URL of the extracted post's `image_urls` is resolved to
a locally stored resource under the post's images directory exactly when
some sibling part (after part 0) has that location with content type
`image/jpeg`; URLs with no such part are left unresolved — absent from both
the path and the thumbnail map — and hence not linked. -/
theorem C3_image_resolution (imagesDir url : List Char)
    (urls : List (List Char)) (pieces : List MhtmlPiece) :
    (url ∈ urls →
      (∃ p ∈ pieces.drop 1,
        p.content_type = "image/jpeg".data ∧ p.location = url) →
      ∃ path,
        mapGet (buildImageMaps imagesDir urls pieces).image_to_path url =
          some path ∧ ∃ rest, path = imagesDir ++ '/' :: rest) ∧
    ((∀ p ∈ pieces.drop 1,
        ¬(p.content_type = "image/jpeg".data ∧ p.location = url)) →
      mapGet (buildImageMaps imagesDir urls pieces).image_to_path url =
        none ∧
      mapGet (buildImageMaps imagesDir urls pieces).image_to_thumbnail url =
        none) := by
  constructor
  · intro hurl hex
    exact buildImageMaps_fold_some imagesDir url urls hurl (pieces.drop 1)
      ⟨[], [], 0⟩ (Or.inr hex)
  · intro hnone
    exact buildImageMaps_fold_none imagesDir url urls (pieces.drop 1)
      ⟨[], [], 0⟩ rfl rfl hnone

/-- Witness for the amended C3: a JPEG part location is resolved to a path
under the images directory, and the PNG location is left unresolved. -/
theorem C3_image_resolution_witness :
    (∃ path,
      mapGet (buildImageMaps "d".data ["http://example.com/i.jpg".data]
          [htmlPiece, jpegPiece]).image_to_path
        "http://example.com/i.jpg".data = some path ∧
      ∃ rest, path = "d".data ++ '/' :: rest) ∧
    (mapGet (buildImageMaps "d".data ["http://example.com/i.png".data]
        [htmlPiece, pngPiece]).image_to_path
      "http://example.com/i.png".data = none ∧
    mapGet (buildImageMaps "d".data ["http://example.com/i.png".data]
        [htmlPiece, pngPiece]).image_to_thumbnail
      "http://example.com/i.png".data = none) :=
  ⟨(C3_image_resolution "d".data "http://example.com/i.jpg".data
      ["http://example.com/i.jpg".data] [htmlPiece, jpegPiece]).1
    (by decide) (by decide),
   (C3_image_resolution "d".data "http://example.com/i.png".data
      ["http://example.com/i.png".data] [htmlPiece, pngPiece]).2
    (by decide)⟩

/-! ### Emphasis-recording lemmas -/

theorem replaceAllStAux_snd {σ : Type} (r : Re)
    (f : σ → List Char × Caps → σ × List Char) :
    ∀ (fuel : Nat) (s : List Char) (st : σ),
      (replaceAllStAux r f fuel s st).2 =
        (foundMatchesAux r fuel s).foldl (fun a mc => (f a mc).1) st := by
  intro fuel
  induction fuel with
  | zero => intro s st; rfl
  | succ n ih =>
    intro s st
    unfold replaceAllStAux foundMatchesAux
    cases hf : findFirst r s with
    | none => rfl
    | some x =>
      obtain ⟨pre, m, rest, caps⟩ := x
      dsimp only
      by_cases hm : m.isEmpty = true
      · rw [if_pos hm, if_pos hm]
        cases rest with
        | nil => rfl
        | cons c cs =>
          dsimp only
          rw [ih, List.foldl_cons]
      · rw [if_neg hm, if_neg hm]
        dsimp only
        rw [ih, List.foldl_cons]

theorem keepFirstAux_fuel :
    ∀ (f1 f2 : Nat) (ts : List (List Char)), ts.length ≤ f1 →
      ts.length ≤ f2 → keepFirstAux f1 ts = keepFirstAux f2 ts := by
  intro f1
  induction f1 with
  | zero =>
    intro f2 ts h1 _
    rw [Nat.le_zero] at h1
    rw [List.length_eq_zero] at h1
    subst h1
    cases f2 <;> rfl
  | succ n ih =>
    intro f2 ts h1 h2
    cases ts with
    | nil => cases f2 <;> rfl
    | cons t ts' =>
      cases f2 with
      | zero => simp at h2
      | succ n2 =>
        unfold keepFirstAux
        have hlen := List.length_filter_le (fun u => decide (u ≠ t)) ts'
        simp only [List.length_cons, Nat.succ_le_succ_iff] at h1 h2
        rw [ih n2 _ (le_trans hlen h1) (le_trans hlen h2)]

theorem keepFirst_cons (t : List Char) (ts : List (List Char)) :
    keepFirst (t :: ts) =
      t :: keepFirst (ts.filter (fun u => u ≠ t)) := by
  show keepFirstAux ((t :: ts).length) (t :: ts) = _
  rw [List.length_cons]
  rw [show keepFirstAux (ts.length + 1) (t :: ts) =
    t :: keepFirstAux ts.length (ts.filter (fun u => decide (u ≠ t)))
    from rfl]
  congr 1
  exact keepFirstAux_fuel ts.length _ _ (List.length_filter_le _ _) le_rfl

theorem iTagStep_fst (st : ITexts) (ihtml : List Char) :
    (iTagStep st ihtml).1 =
      if iTextInBounds (normalizeIText ihtml) then
        (if st.known.contains (normalizeIText ihtml) then st
         else ⟨normalizeIText ihtml :: st.known,
           st.texts ++ [normalizeIText ihtml]⟩)
      else st := by
  unfold iTagStep normalizeIText iTextInBounds
  dsimp only
  by_cases hb : (MIN_I_TEXT_LEN ≤ utf8Len (trimPunctWs (get_text_from_html
      ("<i>".data ++ replaceAll iTagRe (fun _ => []) ihtml ++ "</i>".data)))
    && utf8Len (trimPunctWs (get_text_from_html
      ("<i>".data ++ replaceAll iTagRe (fun _ => []) ihtml ++ "</i>".data)))
      ≤ MAX_I_TEXT_LEN) = true
  · rw [if_pos hb, if_pos hb]
    by_cases hc : st.known.contains (trimPunctWs (get_text_from_html
        ("<i>".data ++ replaceAll iTagRe (fun _ => []) ihtml ++
          "</i>".data))) = true
    · rw [if_pos hc, if_pos hc]
    · rw [if_neg hc, if_neg hc]
  · rw [if_neg hb, if_neg hb]

theorem iFold_texts :
    ∀ (ms : List (List Char × Caps)) (st : ITexts),
      (ms.foldl (fun a mc => (iTagStep a mc.1).1) st).texts =
        st.texts ++ keepFirst
          ((ms.map (fun mc => normalizeIText mc.1)).filter
            (fun t => iTextInBounds t && !(st.known.contains t))) := by
  intro ms
  induction ms with
  | nil => intro st; simp [keepFirst, keepFirstAux]
  | cons m ms' ih =>
    intro st
    rw [List.foldl_cons, List.map_cons, List.filter_cons, iTagStep_fst]
    generalize normalizeIText m.1 = t
    by_cases hb : iTextInBounds t = true
    · by_cases hc : st.known.contains t = true
      · rw [if_pos hb, if_pos hc]
        have hp : (iTextInBounds t && !(st.known.contains t)) = false := by
          rw [hb, hc]; rfl
        rw [hp, if_neg Bool.false_ne_true]
        exact ih st
      · rw [if_pos hb, if_neg hc]
        have hcf : st.known.contains t = false :=
          Bool.not_eq_true _ ▸ Bool.of_not_eq_true hc
        have hp : (iTextInBounds t && !(st.known.contains t)) = true := by
          rw [hb, hcf]; rfl
        rw [hp, if_pos rfl]
        rw [ih ⟨t :: st.known, st.texts ++ [t]⟩]
        dsimp only
        rw [keepFirst_cons]
        have hpred : ∀ u ∈ ms'.map (fun mc => normalizeIText mc.1),
            (iTextInBounds u && !((t :: st.known).contains u)) =
            ((fun v => decide (v ≠ t)) u &&
              ((fun v => iTextInBounds v && !(st.known.contains v)) u)) := by
          intro u _
          by_cases hu : u = t
          · subst hu
            simp [List.contains_cons]
          · simp [List.contains_cons, hu]
        rw [List.filter_congr hpred, ← List.filter_filter]
        simp [List.append_assoc]
    · have hbf : iTextInBounds t = false :=
        Bool.not_eq_true _ ▸ Bool.of_not_eq_true hb
      rw [if_neg hb]
      have hp : (iTextInBounds t && !(st.known.contains t)) = false := by
        rw [hbf]; rfl
      rw [hp, if_neg Bool.false_ne_true]
      exact ih st

/-- C6 counterexample: the run's text is kept in the output markup even when
the trimmed comparison text falls outside the `[3, 50]` byte bound — the
bound only gates recording into `emphasized_texts`: on `<i>hi</i>` (trimmed
byte length 2) the output still contains the collapsed emphasis element and
nothing is recorded. -/
theorem C6_counterexample :
    rewrite_i_tags "<i>hi</i>".data = ("<i>hi</i>".data, []) ∧
    utf8Len (normalizeIText "<i>hi</i>".data) = 2 :=
  ⟨by decide, by decide⟩

/-- C6 (amended): for each collapsed run the normalized comparison text is
computed by trimming ASCII punctuation and white space; the collapsed markup
is always kept in the output regardless of the bound, while the trimmed text
is recorded in `emphasized_texts` exactly when its byte length lies within
`[3, 50]` and it was not recorded before, preserving first-seen order — the
recorded list is the first-occurrence deduplication of the in-bounds
normalized texts of the matched runs. -/
theorem C6_emphasis_recording :
    (∀ html : List Char,
      (rewrite_i_tags html).2 =
        keepFirst (((foundMatches repeatedIRe html).map
          (fun mc => normalizeIText mc.1)).filter iTextInBounds)) ∧
    (∀ (st : ITexts) (ihtml : List Char), (iTagStep st ihtml).2 =
      "<i>".data ++ replaceAll iTagRe (fun _ => []) ihtml ++ "</i>".data) := by
  constructor
  · intro html
    unfold rewrite_i_tags replaceAllSt
    dsimp only
    rw [replaceAllStAux_snd]
    rw [iFold_texts]
    rw [show (⟨[], []⟩ : ITexts).texts = [] from rfl, List.nil_append]
    congr 1
    apply List.filter_congr
    intro u _
    show (iTextInBounds u && !(List.contains [] u)) = iTextInBounds u
    rw [show List.contains [] u = false from rfl]
    simp
  · intro st ihtml
    unfold iTagStep
    dsimp only
    split
    · split <;> rfl
    · rfl

/-! ### Engine lemmas for the lead-text passes -/

theorem mtch_zero (r : Re) (s : List Char) (caps : Caps)
    (k : List Char → Caps → Option MRes) : mtch 0 r s caps k = none := rfl

theorem mtch_cls_nil (fuel : Nat) (p : Char → Bool) (caps : Caps)
    (k : List Char → Caps → Option MRes) :
    mtch fuel (.cls p) [] caps k = none := by
  cases fuel <;> rfl

theorem mtch_cls_false {p : Char → Bool} {c : Char} (hp : p c = false)
    (fuel : Nat) (cs : List Char) (caps : Caps)
    (k : List Char → Caps → Option MRes) :
    mtch fuel (.cls p) (c :: cs) caps k = none := by
  cases fuel with
  | zero => rfl
  | succ n => simp [mtch, hp]

theorem mtch_cat_of_left_none {a : Re} {s : List Char}
    (h : ∀ fuel caps k, mtch fuel a s caps k = none) (b : Re) :
    ∀ fuel caps k, mtch fuel (.cat a b) s caps k = none := by
  intro fuel caps k
  cases fuel with
  | zero => rfl
  | succ n => exact h n caps _

theorem matchAt_none {r : Re} {s : List Char}
    (h : ∀ fuel caps k, mtch fuel r s caps k = none) :
    matchAt r s = none := by
  unfold matchAt
  rw [h]
  rfl

/-- The head of the input rules out a match of `tagRe`. -/
theorem matchAt_tagRe_none {s : List Char}
    (h : ∀ c cs, s = c :: cs → c ≠ '<') : matchAt tagRe s = none := by
  apply matchAt_none
  intro fuel caps k
  cases s with
  | nil =>
    refine mtch_cat_of_left_none (fun fuel caps k => ?_) _ fuel caps k
    exact mtch_cls_nil fuel _ caps k
  | cons c cs =>
    refine mtch_cat_of_left_none (fun fuel caps k => ?_) _ fuel caps k
    exact mtch_cls_false (by simp [h c cs rfl]) fuel cs caps k

/-- Helper: split a true Bool conjunction. -/
theorem bool_and_split {a b : Bool} (h : (a && b) = true) :
    a = true ∧ b = true := by
  cases a with
  | false => cases h
  | true =>
    cases b with
    | false => cases h
    | true => exact ⟨rfl, rfl⟩

/-- The first two characters rule out a match of `spacePunctRe`. -/
theorem matchAt_spacePunctRe_none {s : List Char}
    (h : ∀ c d rest, s = c :: d :: rest →
      ¬(c = ' ' ∧ sentencePunct.contains d = true)) :
    matchAt spacePunctRe s = none := by
  apply matchAt_none
  intro fuel caps k
  cases s with
  | nil =>
    refine mtch_cat_of_left_none (fun fuel caps k => ?_) _ fuel caps k
    exact mtch_cls_nil fuel _ caps k
  | cons c cs =>
    by_cases hc : c = ' '
    · subst hc
      match fuel with
      | 0 => rfl
      | 1 => rfl
      | g + 2 =>
        have h1 : mtch (g + 2) spacePunctRe (' ' :: cs) caps k =
            mtch (g + 1)
              (.group 1 (.cls (fun c => sentencePunct.contains c)))
              cs caps (fun s2 c2 => k s2 c2) := rfl
        rw [h1]
        show mtch g (.cls (fun c => sentencePunct.contains c)) cs caps _ =
          none
        cases cs with
        | nil => exact mtch_cls_nil g _ _ _
        | cons d rest =>
          have hd : sentencePunct.contains d = false := by
            have := h ' ' d rest rfl
            cases hv : sentencePunct.contains d with
            | false => rfl
            | true => exact absurd ⟨rfl, hv⟩ this
          exact mtch_cls_false hd g rest _ _
    · refine mtch_cat_of_left_none (fun fuel caps k => ?_) _ fuel caps k
      exact mtch_cls_false (by simp [hc]) fuel cs caps k

/-- A non-white-space head rules out a match of `multiSpaceRe`. -/
theorem matchAt_multiSpaceRe_none {s : List Char}
    (h : ∀ c cs, s = c :: cs → isUniWs c = false) :
    matchAt multiSpaceRe s = none := by
  apply matchAt_none
  intro fuel caps k
  cases s with
  | nil =>
    refine mtch_cat_of_left_none (fun fuel caps k => ?_) _ fuel caps k
    exact mtch_cls_nil fuel _ caps k
  | cons c cs =>
    refine mtch_cat_of_left_none (fun fuel caps k => ?_) _ fuel caps k
    exact mtch_cls_false (h c cs rfl) fuel cs caps k

/-- A single space followed by a non-space matches `multiSpaceRe` as exactly
that one space. -/
theorem mtch_multiSpaceRe_single (f : Nat) (b : List Char) (caps : Caps)
    (k : List Char → Caps → Option MRes)
    (hb : ∀ c cs, b = c :: cs → isUniWs c = false) :
    mtch (f + 2) multiSpaceRe (' ' :: b) caps k = k b caps := by
  have h1 : mtch (f + 2) multiSpaceRe (' ' :: b) caps k =
      mtch (f + 1) (.starG (.cls isUniWs)) b caps k := rfl
  rw [h1]
  show (mtch f (.cls isUniWs) b caps _).orElse (fun _ => k b caps) = k b caps
  cases b with
  | nil =>
    rw [mtch_cls_nil]
    rfl
  | cons c cs =>
    rw [mtch_cls_false (hb c cs rfl)]
    rfl

theorem matchAt_multiSpaceRe_single (b : List Char)
    (hb : ∀ c cs, b = c :: cs → isUniWs c = false) :
    matchAt multiSpaceRe (' ' :: b) = some ([' '], b, []) := by
  unfold matchAt
  obtain ⟨g, hg⟩ : ∃ g, bigFuel multiSpaceRe (' ' :: b) = g + 2 := by
    refine ⟨bigFuel multiSpaceRe (' ' :: b) - 2, ?_⟩
    have h2 : 2 ≤ bigFuel multiSpaceRe (' ' :: b) := by
      unfold bigFuel
      calc 2 = 2 * 1 := by omega
      _ ≤ (multiSpaceRe.size + 2) * ((' ' :: b).length + 2) :=
        Nat.mul_le_mul (by omega) (by omega)
    omega
  rw [hg, mtch_multiSpaceRe_single g b [] _ hb]
  simp

/-! ### findFirst characterizations on clean strings -/

theorem findFirst_tagRe_none {s : List Char} (h : ∀ c ∈ s, c ≠ '<') :
    findFirst tagRe s = none := by
  induction s with
  | nil =>
    unfold findFirst
    rw [matchAt_tagRe_none (by intro c cs he; cases he)]
  | cons c cs ih =>
    unfold findFirst
    rw [matchAt_tagRe_none (by
      intro x xs he
      injection he with h1 _
      exact h1 ▸ h c (List.mem_cons_self c cs))]
    rw [ih (fun x hx => h x (List.mem_cons_of_mem c hx))]
    rfl

theorem findFirst_spacePunctRe_none {s : List Char}
    (h : noSpacePunct s = true) : findFirst spacePunctRe s = none := by
  induction s with
  | nil =>
    unfold findFirst
    rw [matchAt_spacePunctRe_none (by intro c d rest he; cases he)]
  | cons c cs ih =>
    have hcs : noSpacePunct cs = true := by
      cases cs with
      | nil => rfl
      | cons d rest =>
        unfold noSpacePunct at h
        exact (bool_and_split h).2
    unfold findFirst
    rw [matchAt_spacePunctRe_none (by
      intro x d rest he
      injection he with h1 h2
      subst h1
      intro ⟨hx, hd⟩
      subst hx
      rw [h2] at h
      unfold noSpacePunct at h
      rw [hd] at h
      simp at h)]
    rw [ih hcs]
    rfl

theorem findFirst_multiSpaceRe_none {s : List Char}
    (h : ∀ c ∈ s, isUniWs c = false) : findFirst multiSpaceRe s = none := by
  induction s with
  | nil =>
    unfold findFirst
    rw [matchAt_multiSpaceRe_none (by intro c cs he; cases he)]
  | cons c cs ih =>
    unfold findFirst
    rw [matchAt_multiSpaceRe_none (by
      intro x xs he
      injection he with h1 _
      exact h1 ▸ h c (List.mem_cons_self c cs))]
    rw [ih (fun x hx => h x (List.mem_cons_of_mem c hx))]
    rfl

theorem findFirst_multiSpaceRe_split (a b : List Char)
    (ha : ∀ c ∈ a, isUniWs c = false)
    (hb : ∀ c cs, b = c :: cs → isUniWs c = false) :
    findFirst multiSpaceRe (a ++ ' ' :: b) = some (a, [' '], b, []) := by
  induction a with
  | nil =>
    rw [List.nil_append]
    unfold findFirst
    rw [matchAt_multiSpaceRe_single b hb]
  | cons x xs ih =>
    rw [List.cons_append]
    unfold findFirst
    rw [matchAt_multiSpaceRe_none (by
      intro c cs he
      injection he with h1 _
      exact h1 ▸ ha x (List.mem_cons_self x xs))]
    rw [ih (fun c hc => ha c (List.mem_cons_of_mem x hc))]
    rfl

/-! ### Identity of the lead-text passes on clean strings -/

theorem replaceAll_id_of_none {r : Re} {s : List Char}
    (h : findFirst r s = none) (f : List Char × Caps → List Char) :
    replaceAll r f s = s := by
  unfold replaceAll replaceAllSt
  show (replaceAllStAux r _ (s.length + 1) s ()).1 = s
  unfold replaceAllStAux
  rw [h]

/-- Tail of a no-double-space string. -/
theorem nds_tail {x : Char} {l : List Char}
    (h : noDoubleSpace (x :: l) = true) : noDoubleSpace l = true := by
  cases l with
  | nil => rfl
  | cons z zs =>
    unfold noDoubleSpace at h
    exact (bool_and_split h).2

/-- Suffix of a no-double-space string. -/
theorem nds_suffix :
    ∀ (u v : List Char), noDoubleSpace (u ++ v) = true →
      noDoubleSpace v = true := by
  intro u
  induction u with
  | nil => intro v h; exact h
  | cons y ys ih => intro v h; exact ih v (nds_tail h)

/-- All white space being single interior spaces, the space-compression pass
is the identity. -/
theorem compress_id :
    ∀ (fuel : Nat) (s : List Char), s.length < fuel →
      (∀ c ∈ s, isUniWs c = false ∨ c = ' ') → noDoubleSpace s = true →
      (replaceAllStAux multiSpaceRe
        (fun (_ : Unit) _ => ((), [' '])) fuel s ()).1 = s := by
  intro fuel
  induction fuel with
  | zero => intro s hlen _ _; omega
  | succ n ih =>
    intro s hlen hws hnd
    by_cases hsp : ∀ c ∈ s, isUniWs c = false
    · show (replaceAllStAux multiSpaceRe _ (n + 1) s ()).1 = s
      unfold replaceAllStAux
      rw [findFirst_multiSpaceRe_none hsp]
    · -- split s at the first white-space character, necessarily a space
      have hsplit : ∃ a b, s = a ++ ' ' :: b ∧
          (∀ c ∈ a, isUniWs c = false) := by
        clear hlen hnd ih
        induction s with
        | nil => exact absurd (fun c hc => absurd hc (List.not_mem_nil c)) hsp
        | cons x xs ihs =>
          by_cases hx : isUniWs x = false
          · have hxs : ¬∀ c ∈ xs, isUniWs c = false := by
              intro hc
              exact hsp (fun c hm => by
                rcases List.mem_cons.mp hm with he | hm2
                · exact he ▸ hx
                · exact hc c hm2)
            obtain ⟨a, b, hab, hane⟩ := ihs
              (fun c hm => hws c (List.mem_cons_of_mem x hm)) hxs
            exact ⟨x :: a, b, by rw [hab]; rfl, by
              intro c hm
              rcases List.mem_cons.mp hm with he | hm2
              · exact he ▸ hx
              · exact hane c hm2⟩
          · have hx' : x = ' ' := by
              rcases hws x (List.mem_cons_self x xs) with h1 | h1
              · exact absurd h1 hx
              · exact h1
            exact ⟨[], xs, by subst hx'; rfl, fun c hc =>
              absurd hc (List.not_mem_nil c)⟩
      obtain ⟨a, b, hs, hane⟩ := hsplit
      subst hs
      have hndb : noDoubleSpace (' ' :: b) = true := nds_suffix a _ hnd
      have hbhead : ∀ c cs, b = c :: cs → isUniWs c = false := by
        intro c cs he
        subst he
        unfold noDoubleSpace at hndb
        have hcsp := (bool_and_split hndb).1
        rcases hws c (by
          refine List.mem_append.mpr (Or.inr ?_)
          exact List.mem_cons_of_mem ' ' (List.mem_cons_self c cs)) with
          h1 | h1
        · exact h1
        · subst h1
          simp at hcsp
      show (replaceAllStAux multiSpaceRe
        (fun (_ : Unit) _ => ((), [' '])) (n + 1) (a ++ ' ' :: b) ()).1 =
        a ++ ' ' :: b
      unfold replaceAllStAux
      rw [findFirst_multiSpaceRe_split a b hane hbhead]
      show a ++ [' '] ++ (replaceAllStAux multiSpaceRe
        (fun (_ : Unit) _ => ((), [' '])) n b ()).1 = a ++ ' ' :: b
      have hblen : b.length < n := by
        have := List.length_append a (' ' :: b)
        simp only [List.length_cons] at this
        omega
      rw [ih b hblen
        (fun c hc => hws c
          (List.mem_append.mpr (Or.inr (List.mem_cons_of_mem ' ' hc))))
        (nds_tail hndb)]
      simp [List.append_assoc]

/-- No ampersand, no entity decoding. -/
theorem unescape_id {s : List Char} (h : ∀ c ∈ s, c ≠ '&') :
    unescape s = s := by
  unfold unescape
  suffices hgen : ∀ (fuel : Nat) (t : List Char), (∀ c ∈ t, c ≠ '&') →
      unescapeAux fuel t = t by
    exact hgen s.length s h
  intro fuel
  induction fuel with
  | zero => intro t _; rfl
  | succ n ih =>
    intro t ht
    cases t with
    | nil => rfl
    | cons c cs =>
      have hc : c ≠ '&' := ht c (List.mem_cons_self c cs)
      unfold unescapeAux
      rw [if_neg hc]
      rw [ih cs (fun x hx => ht x (List.mem_cons_of_mem c hx))]

/-- No surrounding white space, no trimming. -/
theorem trimUniWs_id {s : List Char}
    (hhead : ∀ c cs, s = c :: cs → isUniWs c = false)
    (hlast : ∀ c, s.getLast? = some c → isUniWs c = false) :
    trimUniWs s = s := by
  unfold trimUniWs
  have h1 : s.dropWhile isUniWs = s := by
    cases s with
    | nil => rfl
    | cons c cs => rw [List.dropWhile_cons_of_neg (by simp [hhead c cs rfl])]
  rw [h1]
  have h2 : s.reverse.dropWhile isUniWs = s.reverse := by
    cases hr : s.reverse with
    | nil => rfl
    | cons c cs =>
      rw [List.dropWhile_cons_of_neg]
      have : s.getLast? = some c := by
        rw [← List.head?_reverse, hr]
        rfl
      simp [hlast c this]
  rw [h2, List.reverse_reverse]

/-! ### Truncation lemmas -/

theorem unicodeTruncate_append (s : List Char) (w : Nat) :
    ∃ rest, unicodeTruncate s w ++ rest = s := by
  induction s generalizing w with
  | nil => exact ⟨[], rfl⟩
  | cons c cs ih =>
    unfold unicodeTruncate
    by_cases hw : charWidth c ≤ w
    · rw [if_pos hw]
      obtain ⟨rest, hrest⟩ := ih (w - charWidth c)
      exact ⟨rest, by rw [List.cons_append, hrest]⟩
    · rw [if_neg hw]
      exact ⟨c :: cs, rfl⟩

theorem unicodeTruncate_width (s : List Char) (w : Nat) :
    widthSum (unicodeTruncate s w) ≤ w := by
  induction s generalizing w with
  | nil => simp [unicodeTruncate, widthSum]
  | cons c cs ih =>
    unfold unicodeTruncate
    by_cases hw : charWidth c ≤ w
    · rw [if_pos hw]
      have := ih (w - charWidth c)
      simp only [widthSum, List.map_cons, List.sum_cons] at this ⊢
      omega
    · rw [if_neg hw]
      simp [widthSum]

theorem unicodeTruncate_boundary (s : List Char) (w : Nat) (c : Char)
    (cs : List Char) (h : unicodeTruncate s w ++ c :: cs = s) :
    1 ≤ charWidth c := by
  induction s generalizing w with
  | nil => simp [unicodeTruncate] at h
  | cons x xs ih =>
    unfold unicodeTruncate at h
    by_cases hw : charWidth x ≤ w
    · rw [if_pos hw, List.cons_append] at h
      injection h with _ h2
      exact ih (w - charWidth x) h2
    · rw [if_neg hw, List.nil_append] at h
      injection h with h1 _
      subst h1
      omega

theorem unicodeTruncate_id {s : List Char} {w : Nat}
    (h : widthSum s ≤ w) : unicodeTruncate s w = s := by
  induction s generalizing w with
  | nil => rfl
  | cons c cs ih =>
    simp only [widthSum, List.map_cons, List.sum_cons] at h
    unfold unicodeTruncate
    rw [if_pos (by omega)]
    rw [ih (by simp only [widthSum]; omega)]

theorem utf8Len_append (a b : List Char) :
    utf8Len (a ++ b) = utf8Len a + utf8Len b := by
  simp [utf8Len]

theorem utf8Len_lt_of_ne {a rest : List Char} (h : rest ≠ []) :
    utf8Len a < utf8Len (a ++ rest) := by
  rw [utf8Len_append]
  cases rest with
  | nil => exact absurd rfl h
  | cons c cs =>
    have := Char.utf8Size_pos c
    simp only [utf8Len, List.map_cons, List.sum_cons]
    omega

/-- C7 counterexample: three parts of the claim fail on the code.
(1) `lead_text` is not idempotent under re-application even with the
ellipsis marker stripped first — entity decoding can reintroduce markup
that a second pass strips: on `&lt;b&gt; hi` the first pass yields
`<b> hi` (no marker appended, so marker stripping is a no-op) and the
second pass yields `hi`.
(2) The output is not limited to 140 characters: the truncation budget is
display width, so all 150 zero-width combining marks of `zwRun` are kept
(output length 150, no marker).
(3) Truncation can split a multi-code-point grapheme: on `zwjRun` the
width budget runs out between the ZERO WIDTH JOINER and the second emoji
of the MAN–ZWJ–WOMAN cluster, so the emitted prefix ends with a dangling
`U+1F468 U+200D` — the cluster is cut in the middle. -/
theorem C7_counterexample :
    (get_initial_text_from_html "&lt;b&gt; hi".data = "<b> hi".data ∧
      get_initial_text_from_html "<b> hi".data = "hi".data ∧
      "hi".data ≠ "<b> hi".data) ∧
    (get_initial_text_from_html zwRun = zwRun ∧
      zwRun.length = 150 ∧ 140 < zwRun.length) ∧
    get_initial_text_from_html zwjRun =
      List.replicate 138 'a' ++ [Char.ofNat 0x1F468, Char.ofNat 0x200D] ++
        "...".data :=
  ⟨⟨by decide, by decide, by decide⟩,
   ⟨by decide, by decide, by decide⟩, by decide⟩

/-- All the cleanliness conditions of `leadClean` make one `lead_text` pass
the identity. -/
theorem lead_text_clean_id (s : List Char) (h : leadClean s = true) :
    get_initial_text_from_html s = s := by
  unfold leadClean at h
  obtain ⟨h5, hW⟩ := bool_and_split h
  obtain ⟨h4, hLast⟩ := bool_and_split h5
  obtain ⟨h3, hHead⟩ := bool_and_split h4
  obtain ⟨h2, hSP⟩ := bool_and_split h3
  obtain ⟨hAll, hND⟩ := bool_and_split h2
  have hchars : ∀ c ∈ s,
      c ≠ '<' ∧ c ≠ '&' ∧ (isUniWs c = false ∨ c = ' ') := by
    intro c hc
    have hx := List.all_eq_true.mp hAll c hc
    obtain ⟨hx1, hx3⟩ := bool_and_split hx
    obtain ⟨hlt, hamp⟩ := bool_and_split hx1
    refine ⟨by simpa using hlt, by simpa using hamp, ?_⟩
    cases hub : isUniWs c with
    | false => exact Or.inl rfl
    | true =>
      right
      rw [hub] at hx3
      simpa using hx3
  have hheadW : ∀ c cs, s = c :: cs → isUniWs c = false := by
    intro c cs he
    rcases (hchars c (he ▸ List.mem_cons_self c cs)).2.2 with h1 | h1
    · exact h1
    · exfalso
      apply (by simpa using hHead : s.head? ≠ some ' ')
      rw [he, h1]
      rfl
  have hlastW : ∀ c, s.getLast? = some c → isUniWs c = false := by
    intro c hgl
    have hmem : c ∈ s := by
      have hx : c ∈ s.getLast? := by rw [hgl]; rfl
      obtain ⟨hh, he⟩ := List.mem_getLast?_eq_getLast hx
      rw [he]
      exact List.getLast_mem hh
    rcases (hchars c hmem).2.2 with h1 | h1
    · exact h1
    · exfalso
      apply (by simpa using hLast : s.getLast? ≠ some ' ')
      rw [hgl, h1]
  have htag : replaceAll tagRe (fun _ => [' ']) s = s :=
    replaceAll_id_of_none
      (findFirst_tagRe_none (fun c hc => (hchars c hc).1)) _
  have hcompress : replaceAll multiSpaceRe (fun _ => [' ']) s = s := by
    unfold replaceAll replaceAllSt
    exact compress_id (s.length + 1) s (by omega)
      (fun c hc => (hchars c hc).2.2) hND
  have hdespace : replaceAll spacePunctRe (fun mc => getCap mc.2 1) s = s :=
    replaceAll_id_of_none (findFirst_spacePunctRe_none hSP) _
  have hunesc : unescape s = s := unescape_id (fun c hc => (hchars c hc).2.1)
  have htrim : trimUniWs s = s := trimUniWs_id hheadW hlastW
  have htext : get_text_from_html s = s := by
    unfold get_text_from_html
    rw [htag, hcompress, hdespace, hunesc, htrim]
  unfold get_initial_text_from_html
  rw [htext, unicodeTruncate_id (by simpa using hW)]
  simp

/-- C7 (amended): the truncation bound is display width, not a character
count, and grapheme clusters are not respected — the counterexample shows
an output of 150 characters and a MAN–ZWJ–WOMAN cluster cut in the middle —
so the guarantee that actually holds is: `lead_text` truncates its
tag-stripped, white-space-normalized text to the longest prefix of display
width at most 140 — never splitting a code point, and never stopping in
front of a zero-width (combining) character — and appends the literal
`"..."` marker exactly when truncation removed content; it is NOT
idempotent in general (the counterexample: entity-decoded markup is
re-stripped), but re-application is the identity on outputs free of `<`
and `&` whose white space consists of single interior ASCII spaces, with
no space before sentence punctuation, no surrounding space, and display
width within the truncation budget. -/
theorem C7_lead_text :
    (∀ html : List Char,
      (∃ rest, unicodeTruncate (get_text_from_html html)
          INITIAL_TEXT_MAX_LEN ++ rest = get_text_from_html html) ∧
      widthSum (unicodeTruncate (get_text_from_html html)
        INITIAL_TEXT_MAX_LEN) ≤ INITIAL_TEXT_MAX_LEN ∧
      (get_initial_text_from_html html =
        if unicodeTruncate (get_text_from_html html) INITIAL_TEXT_MAX_LEN =
            get_text_from_html html
        then get_text_from_html html
        else unicodeTruncate (get_text_from_html html)
          INITIAL_TEXT_MAX_LEN ++ "...".data) ∧
      (∀ c cs, unicodeTruncate (get_text_from_html html)
          INITIAL_TEXT_MAX_LEN ++ c :: cs = get_text_from_html html →
        1 ≤ charWidth c)) ∧
    (∀ s : List Char, leadClean s = true →
      get_initial_text_from_html s = s) := by
  constructor
  · intro html
    refine ⟨unicodeTruncate_append _ _, unicodeTruncate_width _ _, ?_,
      fun c cs h => unicodeTruncate_boundary _ _ c cs h⟩
    unfold get_initial_text_from_html
    by_cases he : unicodeTruncate (get_text_from_html html)
        INITIAL_TEXT_MAX_LEN = get_text_from_html html
    · rw [if_pos he, he]
      simp
    · rw [if_neg he]
      obtain ⟨rest, hrest⟩ :=
        unicodeTruncate_append (get_text_from_html html) INITIAL_TEXT_MAX_LEN
      have hne : rest ≠ [] := by
        intro hr
        rw [hr, List.append_nil] at hrest
        exact he hrest
      rw [if_pos (by
        conv_rhs => rw [← hrest]
        exact utf8Len_lt_of_ne hne)]
  · exact lead_text_clean_id

/-- Witness for the amended C7: truncation of a 150-character run stops at a
width-one character, and one pass is the identity on a clean short text. -/
theorem C7_lead_text_witness :
    1 ≤ charWidth 'a' ∧
    get_initial_text_from_html "Hello, hi there.".data =
      "Hello, hi there.".data :=
  ⟨(C7_lead_text.1 aRun).2.2.2 'a' (List.replicate 9 'a') (by decide),
   C7_lead_text.2 "Hello, hi there.".data (by decide)⟩

end GG
